import Mathlib

/-!
Verification development for the MCP adapter subsystem of the repository
(`3.MCP/mcp_client_adapter.py`, `3.MCP/mcp_official_client.py`,
`3.MCP/mcp_core.py`, `3.MCP/mcp_client.py`).

The Python sources are shallowly embedded: JSON values become an inductive
`JVal`, dynamically typed Python runtime values become `PyVal`, dictionaries
become insertion-ordered association lists, and the stateful adapter
operations become pure functions over explicit state records, with process
I/O represented by explicit oracles (functions supplied as arguments) and a
list of requests actually written to a server.  Floating point numbers are
outside the model.
-/

namespace MCP

/-! ### JSON values

`JVal` models the JSON messages exchanged on the wire by
`mcp_official_client.py` (`_send` serializes a Python dict with
`json.dumps(msg) + "\n"`; `_reader` recovers message bodies line by line and
`_wait_for` applies `json.loads`).  Numbers are machine integers (the
protocol ids and payloads used by the client are ints); floats are outside
the model.  Strings are lists of characters. -/

inductive JVal : Type where
  | null : JVal
  | bool (b : Bool) : JVal
  | int (n : Int) : JVal
  | str (s : List Char) : JVal
  | arr (elems : List JVal) : JVal
  | obj (members : List (List Char × JVal)) : JVal

mutual

/-- Boolean equality on `JVal` (decidable equality for the nested
inductive). -/
def beqVal : JVal → JVal → Bool
  | .null, .null => true
  | .bool a, .bool b => a == b
  | .int a, .int b => a == b
  | .str a, .str b => a == b
  | .arr xs, .arr ys => beqVList xs ys
  | .obj ms, .obj ns => beqVMembers ms ns
  | _, _ => false

/-- Boolean equality on lists of `JVal`. -/
def beqVList : List JVal → List JVal → Bool
  | [], [] => true
  | x :: xs, y :: ys => beqVal x y && beqVList xs ys
  | _, _ => false

/-- Boolean equality on object member lists. -/
def beqVMembers : List (List Char × JVal) → List (List Char × JVal) → Bool
  | [], [] => true
  | m :: ms, n :: ns => (m.1 == n.1 && beqVal m.2 n.2) && beqVMembers ms ns
  | _, _ => false

end

mutual

theorem beqVal_iff : ∀ a b : JVal, beqVal a b = true ↔ a = b
  | .null, b => by cases b <;> simp [beqVal]
  | .bool a, b => by cases b <;> simp [beqVal]
  | .int a, b => by cases b <;> simp [beqVal]
  | .str a, b => by cases b <;> simp [beqVal]
  | .arr xs, b => by
      cases b with
      | arr ys => simpa [beqVal] using beqVList_iff xs ys
      | _ => simp [beqVal]
  | .obj ms, b => by
      cases b with
      | obj ns => simpa [beqVal] using beqVMembers_iff ms ns
      | _ => simp [beqVal]

theorem beqVList_iff : ∀ xs ys : List JVal, beqVList xs ys = true ↔ xs = ys
  | [], ys => by cases ys <;> simp [beqVList]
  | x :: xs, ys => by
      cases ys with
      | nil => simp [beqVList]
      | cons y ys =>
          simp only [beqVList, Bool.and_eq_true, List.cons.injEq]
          exact and_congr (beqVal_iff x y) (beqVList_iff xs ys)

theorem beqVMembers_iff :
    ∀ ms ns : List (List Char × JVal), beqVMembers ms ns = true ↔ ms = ns
  | [], ns => by cases ns <;> simp [beqVMembers]
  | m :: ms, ns => by
      cases ns with
      | nil => simp [beqVMembers]
      | cons n ns =>
          simp only [beqVMembers, Bool.and_eq_true, List.cons.injEq, beq_iff_eq]
          rw [beqVal_iff m.2 n.2, beqVMembers_iff ms ns, Prod.ext_iff]

end

instance : DecidableEq JVal :=
  fun a b => decidable_of_iff (beqVal a b = true) (beqVal_iff a b)

/-- Hexadecimal digit characters, lowercase, as produced by Python's
`json.dumps` `\uXXXX` escapes and by decimal integer printing. -/
def hexChar : Nat → Char
  | 0 => '0' | 1 => '1' | 2 => '2' | 3 => '3' | 4 => '4'
  | 5 => '5' | 6 => '6' | 7 => '7' | 8 => '8' | 9 => '9'
  | 10 => 'a' | 11 => 'b' | 12 => 'c' | 13 => 'd' | 14 => 'e'
  | _ => 'f'

/-- Decimal digits of a natural number, most significant first (a single
zero digit for zero). -/
def digitsOf (n : Nat) : List Nat :=
  if n = 0 then [0] else (Nat.digits 10 n).reverse

/-- Decimal digit string of a natural number, exactly as Python prints an
`int` (no sign, no leading zeros, `"0"` for zero). -/
def natChars (n : Nat) : List Char :=
  (digitsOf n).map hexChar

/-- Decimal string of an integer, as Python prints an `int`. -/
def intChars : Int → List Char
  | .ofNat n => natChars n
  | .negSucc m => '-' :: natChars (m + 1)

/-- The six-character escape `\uXXXX` with four lowercase hex digits, for a
code unit `n < 0x10000`. -/
def u4 (n : Nat) : List Char :=
  ['\\', 'u', hexChar (n / 4096 % 16), hexChar (n / 256 % 16),
   hexChar (n / 16 % 16), hexChar (n % 16)]

/-- Escaping of one character inside a JSON string, following CPython's
`json` encoder with `ensure_ascii=True`: `"` and `\` get two-character
escapes, the five control characters BS/TAB/LF/FF/CR get their shorthand
escapes, every other control character and every non-ASCII character is
`\uXXXX`-escaped (as a surrogate pair beyond the BMP), and printable ASCII
is emitted verbatim. -/
def escChar (c : Char) : List Char :=
  if c = '"' then ['\\', '"']
  else if c = '\\' then ['\\', '\\']
  else if c.toNat = 8 then ['\\', 'b']
  else if c.toNat = 9 then ['\\', 't']
  else if c.toNat = 10 then ['\\', 'n']
  else if c.toNat = 12 then ['\\', 'f']
  else if c.toNat = 13 then ['\\', 'r']
  else if c.toNat < 32 then u4 c.toNat
  else if c.toNat < 127 then [c]
  else if c.toNat < 65536 then u4 c.toNat
  else
    u4 (55296 + (c.toNat - 65536) / 1024) ++ u4 (56320 + (c.toNat - 65536) % 1024)

/-- Serialized JSON string: opening quote, escaped characters, closing
quote. -/
def strChars (s : List Char) : List Char :=
  '"' :: ((s.map escChar).flatten ++ ['"'])

mutual

/-- Serialization of a `JVal` to characters, mirroring `json.dumps` with its
default separators (`", "` between items, `": "` after a key). -/
def dumpsVal : JVal → List Char
  | .null => "null".toList
  | .bool true => "true".toList
  | .bool false => "false".toList
  | .int n => intChars n
  | .str s => strChars s
  | .arr [] => ['[', ']']
  | .arr (x :: xs) => '[' :: (dumpsVal x ++ dumpsItems xs)
  | .obj [] => ['{', '}']
  | .obj (m :: ms) =>
      '{' :: (strChars m.1 ++ ':' :: ' ' :: (dumpsVal m.2 ++ dumpsMembers ms))

/-- Remaining items of a serialized array: `", elem"` repeated, then `]`. -/
def dumpsItems : List JVal → List Char
  | [] => [']']
  | x :: xs => ',' :: ' ' :: (dumpsVal x ++ dumpsItems xs)

/-- Remaining members of a serialized object: `", "key": value"` repeated,
then `}`. -/
def dumpsMembers : List (List Char × JVal) → List Char
  | [] => ['}']
  | m :: ms =>
      ',' :: ' ' :: (strChars m.1 ++ ':' :: ' ' :: (dumpsVal m.2 ++ dumpsMembers ms))

end

/-! ### JSON parsing (model of `json.loads`) -/

/-- The whitespace characters skipped by the JSON scanner. -/
def isWs (c : Char) : Bool :=
  c = ' ' || c = '\t' || c = '\n' || c = '\r'

/-- Drop leading JSON whitespace. -/
def skipWs : List Char → List Char
  | [] => []
  | c :: cs => if isWs c then skipWs cs else c :: cs

/-- Value of one hexadecimal digit character, if any. -/
def hexVal : Char → Option Nat :=
  fun c =>
    if '0' ≤ c ∧ c ≤ '9' then some (c.toNat - 48)
    else if 'a' ≤ c ∧ c ≤ 'f' then some (c.toNat - 87)
    else if 'A' ≤ c ∧ c ≤ 'F' then some (c.toNat - 55)
    else none

/-- Value of a four-hex-digit escape payload, if well formed. -/
def hex4 (a b c d : Char) : Option Nat :=
  match hexVal a, hexVal b, hexVal c, hexVal d with
  | some x, some y, some z, some w => some (((x * 16 + y) * 16 + z) * 16 + w)
  | _, _, _, _ => none

/-- Single-character escapes accepted after a backslash in a JSON string. -/
def escLookup : Char → Option Char
  | '"' => some '"'
  | '\\' => some '\\'
  | '/' => some '/'
  | 'b' => some (Char.ofNat 8)
  | 'f' => some (Char.ofNat 12)
  | 'n' => some '\n'
  | 'r' => some '\r'
  | 't' => some '\t'
  | _ => none

/-- Recognize the `\uXXXX` escape of a low surrogate at the head of the
input. -/
def lowSurrogate : List Char → Option (Nat × List Char)
  | '\\' :: 'u' :: a :: b :: c :: d :: rest =>
    match hex4 a b c d with
    | some m => if 56320 ≤ m ∧ m < 57344 then some (m, rest) else none
    | none => none
  | _ => none

/-- Parse the body of a JSON string after the opening quote, returning the
decoded characters and the remaining input after the closing quote.
`\uXXXX` escapes are decoded, with a high/low surrogate pair combined into
one scalar (a lone surrogate is rejected, since the model's characters are
unicode scalar values).  The fuel argument (one unit per decoded character)
only makes the recursion structural; callers pass `length + 1`, which is
always sufficient. -/
def parseStr : Nat → List Char → Option (List Char × List Char)
  | 0, _ => none
  | fuel + 1, cs =>
    match cs with
    | [] => none
    | c :: rest =>
      if c = '"' then some ([], rest)
      else if c = '\\' then
        match rest with
        | [] => none
        | e :: rest1 =>
          if e = 'u' then
            match rest1 with
            | a :: b :: c2 :: d :: rest2 =>
              match hex4 a b c2 d with
              | none => none
              | some n =>
                if 55296 ≤ n ∧ n < 56320 then
                  match lowSurrogate rest2 with
                  | some (m, rest3) =>
                    (parseStr fuel rest3).map
                      (fun p =>
                        (Char.ofNat (65536 + (n - 55296) * 1024 + (m - 56320)) :: p.1,
                         p.2))
                  | none => none
                else
                  (parseStr fuel rest2).map (fun p => (Char.ofNat n :: p.1, p.2))
            | _ => none
          else
            match escLookup e with
            | some ec => (parseStr fuel rest1).map (fun p => (ec :: p.1, p.2))
            | none => none
      else (parseStr fuel rest).map (fun p => (c :: p.1, p.2))

/-- Consume a maximal run of decimal digits, folding them onto `acc`. -/
def parseDigits (acc : Nat) : List Char → Nat × List Char
  | [] => (acc, [])
  | c :: rest =>
    if c.isDigit then parseDigits (acc * 10 + (c.toNat - 48)) rest
    else (acc, c :: rest)

mutual

/-- Parse one JSON value (fueled; `fuel` bounds the recursion depth through
nested containers).  Mirrors the dispatch of the `json` scanner: leading
whitespace is skipped, then the first character selects null / booleans /
string / array / object / signed or unsigned number. -/
def parseVal : Nat → List Char → Option (JVal × List Char)
  | 0, _ => none
  | fuel + 1, cs =>
    match skipWs cs with
    | [] => none
    | c :: rest =>
      if c = 'n' then
        match rest with
        | 'u' :: 'l' :: 'l' :: r => some (.null, r)
        | _ => none
      else if c = 't' then
        match rest with
        | 'r' :: 'u' :: 'e' :: r => some (.bool true, r)
        | _ => none
      else if c = 'f' then
        match rest with
        | 'a' :: 'l' :: 's' :: 'e' :: r => some (.bool false, r)
        | _ => none
      else if c = '"' then
        match parseStr (rest.length + 1) rest with
        | some p => some (.str p.1, p.2)
        | none => none
      else if c = '[' then
        match skipWs rest with
        | [] => none
        | c1 :: r =>
          if c1 = ']' then some (.arr [], r)
          else
            match parseVal fuel (c1 :: r) with
            | some (x, r1) =>
              match parseItems fuel r1 with
              | some (xs, r2) => some (.arr (x :: xs), r2)
              | none => none
            | none => none
      else if c = '{' then
        match skipWs rest with
        | [] => none
        | c1 :: r =>
          if c1 = '}' then some (.obj [], r)
          else if c1 = '"' then
            match parseStr (r.length + 1) r with
            | some (k, r1) =>
              match skipWs r1 with
              | [] => none
              | c2 :: r2 =>
                if c2 = ':' then
                  match parseVal fuel r2 with
                  | some (v, r3) =>
                    match parseMembers fuel r3 with
                    | some (ms, r4) => some (.obj ((k, v) :: ms), r4)
                    | none => none
                  | none => none
                else none
            | none => none
          else none
      else if c = '-' then
        match rest with
        | d :: rest1 =>
          if d.isDigit then
            let p := parseDigits (d.toNat - 48) rest1
            some (.int (-(p.1 : Int)), p.2)
          else none
        | [] => none
      else if c.isDigit then
        let p := parseDigits (c.toNat - 48) rest
        some (.int (p.1 : Int), p.2)
      else none

/-- Parse the items of an array after the first element: `, value` repeated
until `]`. -/
def parseItems : Nat → List Char → Option (List JVal × List Char)
  | 0, _ => none
  | fuel + 1, cs =>
    match skipWs cs with
    | [] => none
    | c :: r =>
      if c = ']' then some ([], r)
      else if c = ',' then
        match parseVal fuel r with
        | some (x, r1) =>
          match parseItems fuel r1 with
          | some (xs, r2) => some (x :: xs, r2)
          | none => none
        | none => none
      else none

/-- Parse the members of an object after the first pair: `, "key": value`
repeated until `}`. -/
def parseMembers : Nat → List Char → Option (List (List Char × JVal) × List Char)
  | 0, _ => none
  | fuel + 1, cs =>
    match skipWs cs with
    | [] => none
    | c :: r =>
      if c = '}' then some ([], r)
      else if c = ',' then
        match skipWs r with
        | [] => none
        | c1 :: r1 =>
          if c1 = '"' then
            match parseStr (r1.length + 1) r1 with
            | some (k, r2) =>
              match skipWs r2 with
              | [] => none
              | c2 :: r3 =>
                if c2 = ':' then
                  match parseVal fuel r3 with
                  | some (v, r4) =>
                    match parseMembers fuel r4 with
                    | some (ms, r5) => some ((k, v) :: ms, r5)
                    | none => none
                  | none => none
                else none
            | none => none
          else none
      else none

end

/-- Model of `json.loads`: parse one value and require that only whitespace
remains.  Supplying fuel `length + 1` is always enough (see
`jfuel_le_dumps_length`). -/
def loads (cs : List Char) : Option JVal :=
  match parseVal (cs.length + 1) cs with
  | some (v, rest) => if skipWs rest = [] then some v else none
  | none => none

/-- True when the input does not begin with a decimal digit (the condition
under which a serialized number followed by this input parses back
unchanged). -/
def noDigitHead : List Char → Bool
  | [] => true
  | c :: _ => !c.isDigit

mutual

/-- Recursion fuel sufficient for `parseVal` on the serialization of a
value: one unit per nesting step. -/
def jfuel : JVal → Nat
  | .null => 1
  | .bool _ => 1
  | .int _ => 1
  | .str _ => 1
  | .arr l => 1 + jfuelItems l
  | .obj l => 1 + jfuelMembers l

/-- Fuel for `parseItems` on serialized remaining items. -/
def jfuelItems : List JVal → Nat
  | [] => 1
  | x :: xs => 1 + max (jfuel x) (jfuelItems xs)

/-- Fuel for `parseMembers` on serialized remaining members. -/
def jfuelMembers : List (List Char × JVal) → Nat
  | [] => 1
  | m :: ms => 1 + max (jfuel m.2) (jfuelMembers ms)

end

/-- Pairwise distinctness of a list of object keys. -/
def nodupKeys : List (List Char) → Bool
  | [] => true
  | k :: ks => (!ks.contains k) && nodupKeys ks

mutual

/-- Well-formedness of a JSON value as the image of a Python value: object
keys are pairwise distinct at every level (Python dicts cannot carry
duplicate keys). -/
def jWF : JVal → Bool
  | .null => true
  | .bool _ => true
  | .int _ => true
  | .str _ => true
  | .arr l => jWFItems l
  | .obj l => nodupKeys (l.map Prod.fst) && jWFMembers l

/-- Well-formedness of the elements of an array. -/
def jWFItems : List JVal → Bool
  | [] => true
  | x :: xs => jWF x && jWFItems xs

/-- Well-formedness of the values of an object. -/
def jWFMembers : List (List Char × JVal) → Bool
  | [] => true
  | m :: ms => jWF m.2 && jWFMembers ms

end

/-! ### Wire framing: `_send` and `_reader` of `mcp_official_client.py`

The byte stream on a pipe is modeled as a `List Char`.  `_send` serializes
the message dict, appends one newline and writes it with a single `write`
call; `_reader` consumes the stream line by line, handling both
`Content-Length`-framed bodies and bare newline-delimited JSON, and puts
each recovered body (a `List Char`) on the inbound queue (the returned
list). -/

/-- `_send`'s encoding: `json.dumps(msg) + "\n"` written in one call. -/
def sendLine (m : JVal) : List Char :=
  dumpsVal m ++ ['\n']

/-- `stream.readline()`: the next line including its newline, and the rest
of the stream. -/
def readLine : List Char → List Char × List Char
  | [] => ([], [])
  | c :: cs =>
    if c = '\n' then ([c], cs)
    else
      let p := readLine cs
      (c :: p.1, p.2)

/-- `line.rstrip("\r\n")`: drop trailing CR/LF characters. -/
def rstripCRLF (cs : List Char) : List Char :=
  (cs.reverse.dropWhile (fun c => c = '\n' || c = '\r')).reverse

/-- `s.strip()`: drop leading and trailing whitespace. -/
def stripWs (cs : List Char) : List Char :=
  ((cs.dropWhile isWs).reverse.dropWhile isWs).reverse

/-- The header prefix recognized by `_reader`. -/
def clPrefix : List Char :=
  ['C', 'o', 'n', 't', 'e', 'n', 't', '-', 'L', 'e', 'n', 'g', 't', 'h', ':']

/-- `int(v)` on a stripped header value: optional sign and a nonempty digit
run, `none` when malformed (Python would raise `ValueError`, which the
reader catches and skips). -/
def parseHeaderInt (cs : List Char) : Option Int :=
  match cs with
  | '-' :: d :: ds =>
    if d.isDigit && ds.all Char.isDigit then
      some (-(((parseDigits (d.toNat - 48) ds).1 : Int)))
    else none
  | d :: ds =>
    if d.isDigit && ds.all Char.isDigit then
      some ((parseDigits (d.toNat - 48) ds).1 : Int)
    else none
  | [] => none

/-- One pass of `_reader`'s loop over the stream, mirroring
`mcp_official_client.MCPOfficialManager._reader`: EOF ends the loop; a
`Content-Length:` header line triggers reading a blank separator line and
then exactly `n` characters of body (all remaining characters when `n` is
negative, as `stream.read` does); any other nonempty stripped line starting
with `{` is queued; everything else is discarded as noise. -/
def readerLoop : Nat → List Char → List (List Char)
  | 0, _ => []
  | fuel + 1, stream =>
    let p := readLine stream
    if p.1 = [] then []
    else
      let lineStripped := rstripCRLF p.1
      if clPrefix.isPrefixOf lineStripped then
        match parseHeaderInt (stripWs (lineStripped.drop clPrefix.length)) with
        | none => readerLoop fuel p.2
        | some len =>
          let q := readLine p.2
          let body := if len < 0 then q.2 else q.2.take len.toNat
          let rest := if len < 0 then [] else q.2.drop len.toNat
          if body = [] then readerLoop fuel rest
          else stripWs body :: readerLoop fuel rest
      else
        let candidate := stripWs lineStripped
        if candidate = [] then readerLoop fuel p.2
        else if candidate.head? = some '{' then candidate :: readerLoop fuel p.2
        else readerLoop fuel p.2

/-- The reader applied to a whole (finite) stream. -/
def readerRun (stream : List Char) : List (List Char) :=
  readerLoop (stream.length + 1) stream

/-- Decoding a stream: every body the reader queues, parsed with
`json.loads` as `_wait_for` does. -/
def decodeStream (stream : List Char) : List (Option JVal) :=
  (readerRun stream).map loads

/-! ### Round-trip lemmas: strings -/

theorem char_valid_nat (c : Char) :
    c.toNat < 55296 ∨ (57343 < c.toNat ∧ c.toNat < 1114112) := by
  rcases c.valid with h | ⟨h1, h2⟩
  · exact Or.inl (UInt32.toNat_lt_of_lt (by norm_num [UInt32.size]) h)
  · exact Or.inr ⟨UInt32.lt_toNat_of_lt (by norm_num [UInt32.size]) h1,
      UInt32.toNat_lt_of_lt (by norm_num [UInt32.size]) h2⟩

theorem hexVal_hexChar : ∀ d, d < 16 → hexVal (hexChar d) = some d := by decide

theorem hex4_quad (n : Nat) (h : n < 65536) :
    hex4 (hexChar (n / 4096 % 16)) (hexChar (n / 256 % 16))
      (hexChar (n / 16 % 16)) (hexChar (n % 16)) = some n := by
  rw [hex4, hexVal_hexChar _ (by omega), hexVal_hexChar _ (by omega),
    hexVal_hexChar _ (by omega), hexVal_hexChar _ (by omega)]
  exact congrArg some (by omega)

theorem parseStr_quote (f : Nat) (rest : List Char) :
    parseStr (f + 1) ('"' :: rest) = some ([], rest) := rfl

theorem parseStr_escQ (f : Nat) (rest : List Char) :
    parseStr (f + 1) ('\\' :: '"' :: rest) =
      (parseStr f rest).map (fun p => ('"' :: p.1, p.2)) := rfl

theorem parseStr_escB (f : Nat) (rest : List Char) :
    parseStr (f + 1) ('\\' :: '\\' :: rest) =
      (parseStr f rest).map (fun p => ('\\' :: p.1, p.2)) := rfl

theorem parseStr_cons (f : Nat) (c : Char) (rest : List Char) :
    parseStr (f + 1) (c :: rest) =
      (if c = '"' then some ([], rest)
       else if c = '\\' then
         match rest with
         | [] => none
         | e :: rest1 =>
           if e = 'u' then
             match rest1 with
             | a :: b :: c2 :: d :: rest2 =>
               match hex4 a b c2 d with
               | none => none
               | some n =>
                 if 55296 ≤ n ∧ n < 56320 then
                   match lowSurrogate rest2 with
                   | some (m, rest3) =>
                     (parseStr f rest3).map
                       (fun p =>
                         (Char.ofNat (65536 + (n - 55296) * 1024 + (m - 56320)) :: p.1, p.2))
                   | none => none
                 else (parseStr f rest2).map (fun p => (Char.ofNat n :: p.1, p.2))
             | _ => none
           else
             match escLookup e with
             | some ec => (parseStr f rest1).map (fun p => (ec :: p.1, p.2))
             | none => none
       else (parseStr f rest).map (fun p => (c :: p.1, p.2))) := rfl

theorem parseStr_escLit (f : Nat) (e ec : Char) (rest : List Char)
    (hu : ¬e = 'u') (he : escLookup e = some ec) :
    parseStr (f + 1) ('\\' :: e :: rest) =
      (parseStr f rest).map (fun p => (ec :: p.1, p.2)) := by
  rw [parseStr_cons, if_neg (show ¬('\\' = '"') by decide), if_pos rfl]
  dsimp only
  rw [if_neg hu, he]

theorem parseStr_plain (f : Nat) (c : Char) (rest : List Char)
    (h1 : ¬c = '"') (h2 : ¬c = '\\') :
    parseStr (f + 1) (c :: rest) = (parseStr f rest).map (fun p => (c :: p.1, p.2)) := by
  rw [parseStr_cons, if_neg h1, if_neg h2]

theorem parseStr_bsu (f : Nat) (a b cc d : Char) (rest : List Char) :
    parseStr (f + 1) ('\\' :: 'u' :: a :: b :: cc :: d :: rest) =
      (match hex4 a b cc d with
       | none => none
       | some n =>
         if 55296 ≤ n ∧ n < 56320 then
           match lowSurrogate rest with
           | some (m, rest3) =>
             (parseStr f rest3).map
               (fun p =>
                 (Char.ofNat (65536 + (n - 55296) * 1024 + (m - 56320)) :: p.1, p.2))
           | none => none
         else (parseStr f rest).map (fun p => (Char.ofNat n :: p.1, p.2))) := rfl

theorem lowSurrogate_cons (a b c d : Char) (rest : List Char) :
    lowSurrogate ('\\' :: 'u' :: a :: b :: c :: d :: rest) =
      (match hex4 a b c d with
       | some m => if 56320 ≤ m ∧ m < 57344 then some (m, rest) else none
       | none => none) := rfl

theorem lowSurrogate_u4 (m : Nat) (suffix : List Char)
    (hm : 56320 ≤ m ∧ m < 57344) :
    lowSurrogate (u4 m ++ suffix) = some (m, suffix) := by
  have h : u4 m ++ suffix = '\\' :: 'u' :: hexChar (m / 4096 % 16) :: hexChar (m / 256 % 16)
      :: hexChar (m / 16 % 16) :: hexChar (m % 16) :: suffix := rfl
  rw [h, lowSurrogate_cons, hex4_quad m (by omega)]
  dsimp only
  rw [if_pos hm]

theorem parseStr_u4 (f : Nat) (n : Nat) (suffix : List Char)
    (hlt : n < 65536) (hsur : ¬(55296 ≤ n ∧ n < 56320)) :
    parseStr (f + 1) (u4 n ++ suffix) =
      (parseStr f suffix).map (fun p => (Char.ofNat n :: p.1, p.2)) := by
  have h : u4 n ++ suffix = '\\' :: 'u' :: hexChar (n / 4096 % 16) :: hexChar (n / 256 % 16)
      :: hexChar (n / 16 % 16) :: hexChar (n % 16) :: suffix := rfl
  rw [h, parseStr_bsu, hex4_quad n hlt]
  dsimp only
  exact if_neg hsur

set_option maxHeartbeats 1600000 in
theorem parseStr_esc (f : Nat) (c : Char) (suffix : List Char) :
    parseStr (f + 1) (escChar c ++ suffix) =
      (parseStr f suffix).map (fun p => (c :: p.1, p.2)) := by
  have hval := char_valid_nat c
  rw [escChar]
  split_ifs with h1 h2 h3 h4 h5 h6 h7 h8 h9 h10
  · subst h1; exact parseStr_escQ f suffix
  · subst h2; exact parseStr_escB f suffix
  · have hc : c = Char.ofNat 8 := by
      have h := Char.ofNat_toNat c
      rw [h3] at h
      exact h.symm
    rw [hc]
    exact parseStr_escLit f 'b' (Char.ofNat 8) suffix (by decide) rfl
  · have hc : c = Char.ofNat 9 := by
      have h := Char.ofNat_toNat c
      rw [h4] at h
      exact h.symm
    rw [hc]
    exact parseStr_escLit f 't' (Char.ofNat 9) suffix (by decide) rfl
  · have hc : c = Char.ofNat 10 := by
      have h := Char.ofNat_toNat c
      rw [h5] at h
      exact h.symm
    rw [hc]
    exact parseStr_escLit f 'n' (Char.ofNat 10) suffix (by decide) rfl
  · have hc : c = Char.ofNat 12 := by
      have h := Char.ofNat_toNat c
      rw [h6] at h
      exact h.symm
    rw [hc]
    exact parseStr_escLit f 'f' (Char.ofNat 12) suffix (by decide) rfl
  · have hc : c = Char.ofNat 13 := by
      have h := Char.ofNat_toNat c
      rw [h7] at h
      exact h.symm
    rw [hc]
    exact parseStr_escLit f 'r' (Char.ofNat 13) suffix (by decide) rfl
  · rw [parseStr_u4 f c.toNat suffix (by omega) (by omega), Char.ofNat_toNat]
  · exact parseStr_plain f c suffix h1 h2
  · rw [parseStr_u4 f c.toNat suffix (by omega) (by omega), Char.ofNat_toNat]
  · -- astral plane: a surrogate pair recombines to the original scalar
    have hv : c.toNat < 1114112 := by omega
    have hsh : u4 (55296 + (c.toNat - 65536) / 1024) ++
        (u4 (56320 + (c.toNat - 65536) % 1024) ++ suffix) =
        '\\' :: 'u' :: hexChar ((55296 + (c.toNat - 65536) / 1024) / 4096 % 16)
          :: hexChar ((55296 + (c.toNat - 65536) / 1024) / 256 % 16)
          :: hexChar ((55296 + (c.toNat - 65536) / 1024) / 16 % 16)
          :: hexChar ((55296 + (c.toNat - 65536) / 1024) % 16)
          :: (u4 (56320 + (c.toNat - 65536) % 1024) ++ suffix) := rfl
    rw [List.append_assoc, hsh, parseStr_bsu, hex4_quad _ (by omega)]
    dsimp only
    rw [if_pos (by omega : 55296 ≤ 55296 + (c.toNat - 65536) / 1024 ∧
        55296 + (c.toNat - 65536) / 1024 < 56320)]
    rw [lowSurrogate_u4 _ suffix (by omega)]
    dsimp only
    have harg : 65536 + (55296 + (c.toNat - 65536) / 1024 - 55296) * 1024 +
        (56320 + (c.toNat - 65536) % 1024 - 56320) = c.toNat := by omega
    rw [harg, Char.ofNat_toNat]

theorem parseStr_dumps (s : List Char) : ∀ (f : Nat) (suffix : List Char), s.length < f →
    parseStr f ((s.map escChar).flatten ++ ('"' :: suffix)) = some (s, suffix) := by
  induction s with
  | nil =>
      intro f suffix hf
      obtain ⟨f', rfl⟩ : ∃ f', f = f' + 1 := ⟨f - 1, by omega⟩
      exact parseStr_quote f' suffix
  | cons c s ih =>
      intro f suffix hf
      obtain ⟨f', rfl⟩ : ∃ f', f = f' + 1 := ⟨f - 1, by omega⟩
      simp only [List.map_cons, List.flatten_cons, List.append_assoc]
      rw [parseStr_esc, ih f' suffix (by simpa using hf)]
      rfl

/-! ### Round-trip lemmas: numbers -/

theorem hexChar_facts : ∀ d, d < 10 →
    (hexChar d).isDigit = true ∧ isWs (hexChar d) = false ∧
    ¬hexChar d = 'n' ∧ ¬hexChar d = 't' ∧ ¬hexChar d = 'f' ∧ ¬hexChar d = '"' ∧
    ¬hexChar d = '[' ∧ ¬hexChar d = '{' ∧ ¬hexChar d = '-' ∧
    (hexChar d).toNat - 48 = d := by decide

theorem parseDigits_spec : ∀ (ds : List Nat) (acc : Nat) (rest : List Char),
    (∀ d ∈ ds, d < 10) → noDigitHead rest = true →
    parseDigits acc (ds.map hexChar ++ rest) =
      (ds.foldl (fun a d => a * 10 + d) acc, rest) := by
  intro ds
  induction ds with
  | nil =>
      intro acc rest _ hrest
      cases rest with
      | nil => rfl
      | cons c t =>
          have hc : c.isDigit = false := by
            simpa [noDigitHead] using hrest
          simp [parseDigits, hc]
  | cons d ds ih =>
      intro acc rest hds hrest
      have hd : d < 10 := hds d (by simp)
      have hfacts := hexChar_facts d hd
      simp only [List.map_cons, List.cons_append, parseDigits, hfacts.1, if_true, List.foldl]
      rw [hfacts.2.2.2.2.2.2.2.2.2]
      exact ih (acc * 10 + d) rest (fun e he => hds e (by simp [he])) hrest

theorem digitsOf_ne_nil (n : Nat) : digitsOf n ≠ [] := by
  rw [digitsOf]
  split_ifs with h
  · simp
  · simpa using Nat.digits_ne_nil_iff_ne_zero.mpr h

theorem digitsOf_lt (n : Nat) : ∀ d ∈ digitsOf n, d < 10 := by
  intro d hd
  rw [digitsOf] at hd
  split_ifs at hd with h
  · simp at hd; omega
  · exact Nat.digits_lt_base (by norm_num) (List.mem_reverse.mp hd)

theorem foldr_ofDigits (l : List Nat) :
    l.foldr (fun d a => a * 10 + d) 0 = Nat.ofDigits 10 l := by
  induction l with
  | nil => simp [Nat.ofDigits]
  | cons d t ih => simp [Nat.ofDigits, ih]; ring

theorem digitsOf_foldl (n : Nat) :
    (digitsOf n).foldl (fun a d => a * 10 + d) 0 = n := by
  rw [digitsOf]
  split_ifs with h
  · simp [h]
  · rw [List.foldl_reverse]
    have : (fun (x : Nat) (y : Nat) => y * 10 + x) = (fun d a => a * 10 + d) := rfl
    rw [this, foldr_ofDigits, Nat.ofDigits_digits]

/-! ### Round-trip lemmas: the value parser -/

theorem skipWs_not (c : Char) (l : List Char) (h : isWs c = false) :
    skipWs (c :: l) = c :: l := by
  simp [skipWs, h]

theorem skipWs_ws (c : Char) (l : List Char) (h : isWs c = true) :
    skipWs (c :: l) = skipWs l := by
  simp [skipWs, h]

theorem parseVal_succ (f : Nat) (cs : List Char) :
    parseVal (f + 1) cs = (match skipWs cs with
      | [] => none
      | c :: rest =>
        if c = 'n' then
          match rest with
          | 'u' :: 'l' :: 'l' :: r => some (.null, r)
          | _ => none
        else if c = 't' then
          match rest with
          | 'r' :: 'u' :: 'e' :: r => some (.bool true, r)
          | _ => none
        else if c = 'f' then
          match rest with
          | 'a' :: 'l' :: 's' :: 'e' :: r => some (.bool false, r)
          | _ => none
        else if c = '"' then
          match parseStr (rest.length + 1) rest with
          | some p => some (.str p.1, p.2)
          | none => none
        else if c = '[' then
          match skipWs rest with
          | [] => none
          | c1 :: r =>
            if c1 = ']' then some (.arr [], r)
            else
              match parseVal f (c1 :: r) with
              | some (x, r1) =>
                match parseItems f r1 with
                | some (xs, r2) => some (.arr (x :: xs), r2)
                | none => none
              | none => none
        else if c = '{' then
          match skipWs rest with
          | [] => none
          | c1 :: r =>
            if c1 = '}' then some (.obj [], r)
            else if c1 = '"' then
              match parseStr (r.length + 1) r with
              | some (k, r1) =>
                match skipWs r1 with
                | [] => none
                | c2 :: r2 =>
                  if c2 = ':' then
                    match parseVal f r2 with
                    | some (v, r3) =>
                      match parseMembers f r3 with
                      | some (ms, r4) => some (.obj ((k, v) :: ms), r4)
                      | none => none
                    | none => none
                  else none
              | none => none
            else none
        else if c = '-' then
          match rest with
          | d :: rest1 =>
            if d.isDigit then
              let p := parseDigits (d.toNat - 48) rest1
              some (.int (-(p.1 : Int)), p.2)
            else none
          | [] => none
        else if c.isDigit then
          let p := parseDigits (c.toNat - 48) rest
          some (.int (p.1 : Int), p.2)
        else none) := rfl

theorem parseVal_ws (f : Nat) (c : Char) (l : List Char) (h : isWs c = true) :
    parseVal f (c :: l) = parseVal f l := by
  cases f with
  | zero => rfl
  | succ f => rw [parseVal_succ, parseVal_succ, skipWs_ws c l h]

theorem parseVal_strHead (f : Nat) (tail : List Char) :
    parseVal (f + 1) ('"' :: tail) =
      (match parseStr (tail.length + 1) tail with
       | some p => some (.str p.1, p.2)
       | none => none) := rfl

theorem parseVal_arrHead (f : Nat) (tail : List Char) :
    parseVal (f + 1) ('[' :: tail) =
      (match skipWs tail with
       | [] => none
       | c1 :: r =>
         if c1 = ']' then some (.arr [], r)
         else
           match parseVal f (c1 :: r) with
           | some (x, r1) =>
             match parseItems f r1 with
             | some (xs, r2) => some (.arr (x :: xs), r2)
             | none => none
           | none => none) := rfl

theorem parseVal_objHead (f : Nat) (tail : List Char) :
    parseVal (f + 1) ('{' :: tail) =
      (match skipWs tail with
       | [] => none
       | c1 :: r =>
         if c1 = '}' then some (.obj [], r)
         else if c1 = '"' then
           match parseStr (r.length + 1) r with
           | some (k, r1) =>
             match skipWs r1 with
             | [] => none
             | c2 :: r2 =>
               if c2 = ':' then
                 match parseVal f r2 with
                 | some (v, r3) =>
                   match parseMembers f r3 with
                   | some (ms, r4) => some (.obj ((k, v) :: ms), r4)
                   | none => none
                 | none => none
               else none
           | none => none
         else none) := rfl

theorem parseVal_negHead (f : Nat) (tail : List Char) :
    parseVal (f + 1) ('-' :: tail) =
      (match tail with
       | d :: rest1 =>
         if d.isDigit then
           let p := parseDigits (d.toNat - 48) rest1
           some (.int (-(p.1 : Int)), p.2)
         else none
       | [] => none) := rfl

theorem parseVal_digitHead (f : Nat) (c : Char) (tail : List Char)
    (h0 : c.isDigit = true) (hws : isWs c = false)
    (h1 : ¬c = 'n') (h2 : ¬c = 't') (h3 : ¬c = 'f') (h4 : ¬c = '"')
    (h5 : ¬c = '[') (h6 : ¬c = '{') (h7 : ¬c = '-') :
    parseVal (f + 1) (c :: tail) =
      some (.int (((parseDigits (c.toNat - 48) tail).1 : Nat) : Int),
        (parseDigits (c.toNat - 48) tail).2) := by
  rw [parseVal_succ, skipWs_not c tail hws]
  dsimp only
  rw [if_neg h1, if_neg h2, if_neg h3, if_neg h4, if_neg h5, if_neg h6, if_neg h7, if_pos h0]

theorem parseVal_natChars (f : Nat) (n : Nat) (rest : List Char)
    (hrest : noDigitHead rest = true) :
    parseVal (f + 1) (natChars n ++ rest) = some (.int (n : Int), rest) := by
  obtain ⟨d, ds, hd⟩ : ∃ d ds, digitsOf n = d :: ds := by
    cases h : digitsOf n with
    | nil => exact absurd h (digitsOf_ne_nil n)
    | cons d ds => exact ⟨d, ds, rfl⟩
  have hdlt : d < 10 := digitsOf_lt n d (by rw [hd]; simp)
  have hfacts := hexChar_facts d hdlt
  have hnat : natChars n ++ rest = hexChar d :: (ds.map hexChar ++ rest) := by
    rw [natChars, hd]
    simp
  rw [hnat, parseVal_digitHead f (hexChar d) _ hfacts.1 hfacts.2.1 hfacts.2.2.1
    hfacts.2.2.2.1 hfacts.2.2.2.2.1 hfacts.2.2.2.2.2.1 hfacts.2.2.2.2.2.2.1
    hfacts.2.2.2.2.2.2.2.1 hfacts.2.2.2.2.2.2.2.2.1]
  rw [hfacts.2.2.2.2.2.2.2.2.2]
  rw [parseDigits_spec ds d rest (fun e he => digitsOf_lt n e (by rw [hd]; simp [he])) hrest]
  have hval : ds.foldl (fun a e => a * 10 + e) d = n := by
    have := digitsOf_foldl n
    rw [hd] at this
    simpa using this
  rw [hval]

theorem parseVal_intChars (f : Nat) (n : Int) (rest : List Char)
    (hrest : noDigitHead rest = true) :
    parseVal (f + 1) (intChars n ++ rest) = some (.int n, rest) := by
  cases n with
  | ofNat m => exact parseVal_natChars f m rest hrest
  | negSucc m =>
      rw [intChars]
      obtain ⟨d, ds, hd⟩ : ∃ d ds, digitsOf (m + 1) = d :: ds := by
        cases h : digitsOf (m + 1) with
        | nil => exact absurd h (digitsOf_ne_nil (m + 1))
        | cons d ds => exact ⟨d, ds, rfl⟩
      have hdlt : d < 10 := digitsOf_lt (m + 1) d (by rw [hd]; simp)
      have hfacts := hexChar_facts d hdlt
      have hnat : ('-' :: natChars (m + 1)) ++ rest =
          '-' :: (hexChar d :: (ds.map hexChar ++ rest)) := by
        rw [natChars, hd]
        simp
      rw [hnat, parseVal_negHead]
      dsimp only
      rw [if_pos hfacts.1]
      rw [hfacts.2.2.2.2.2.2.2.2.2]
      rw [parseDigits_spec ds d rest
        (fun e he => digitsOf_lt (m + 1) e (by rw [hd]; simp [he])) hrest]
      have hval : ds.foldl (fun a e => a * 10 + e) d = m + 1 := by
        have := digitsOf_foldl (m + 1)
        rw [hd] at this
        simpa using this
      rw [hval]
      have : -((m + 1 : Nat) : Int) = Int.negSucc m := by
        simp [Int.negSucc_eq]
      rw [this]

/-- The characters that can begin a serialized JSON value. -/
def leadChar (c : Char) : Prop :=
  c = 'n' ∨ c = 't' ∨ c = 'f' ∨ c = '"' ∨ c = '[' ∨ c = '{' ∨ c = '-' ∨ c.isDigit = true

theorem natChars_cons (n : Nat) :
    ∃ d ds, d < 10 ∧ natChars n = hexChar d :: List.map hexChar ds := by
  obtain ⟨d, ds, hd⟩ : ∃ d ds, digitsOf n = d :: ds := by
    cases h : digitsOf n with
    | nil => exact absurd h (digitsOf_ne_nil n)
    | cons d ds => exact ⟨d, ds, rfl⟩
  exact ⟨d, ds, digitsOf_lt n d (by rw [hd]; simp), by rw [natChars, hd]; simp⟩

theorem dumps_head : ∀ v : JVal, ∃ c t, dumpsVal v = c :: t ∧ leadChar c := by
  intro v
  cases v with
  | null => exact ⟨'n', _, rfl, Or.inl rfl⟩
  | bool b => cases b with
      | true => exact ⟨'t', _, rfl, Or.inr (Or.inl rfl)⟩
      | false => exact ⟨'f', _, rfl, Or.inr (Or.inr (Or.inl rfl))⟩
  | int n =>
      cases n with
      | ofNat m =>
          obtain ⟨d, ds, hlt, hn⟩ := natChars_cons m
          refine ⟨hexChar d, List.map hexChar ds, ?_, ?_⟩
          · show intChars (Int.ofNat m) = _
            rw [intChars, hn]
          · exact Or.inr (Or.inr (Or.inr (Or.inr (Or.inr (Or.inr (Or.inr
              (hexChar_facts d hlt).1))))))
      | negSucc m =>
          exact ⟨'-', _, rfl, Or.inr (Or.inr (Or.inr (Or.inr (Or.inr (Or.inr
            (Or.inl rfl))))))⟩
  | str s => exact ⟨'"', _, rfl, Or.inr (Or.inr (Or.inr (Or.inl rfl)))⟩
  | arr l =>
      cases l with
      | nil => exact ⟨'[', _, rfl, Or.inr (Or.inr (Or.inr (Or.inr (Or.inl rfl))))⟩
      | cons x xs => exact ⟨'[', _, rfl, Or.inr (Or.inr (Or.inr (Or.inr (Or.inl rfl))))⟩
  | obj l =>
      cases l with
      | nil => exact ⟨'{', _, rfl, Or.inr (Or.inr (Or.inr (Or.inr (Or.inr (Or.inl rfl)))))⟩
      | cons m ms =>
          exact ⟨'{', _, rfl, Or.inr (Or.inr (Or.inr (Or.inr (Or.inr (Or.inl rfl)))))⟩

theorem leadChar_not_ws {c : Char} (h : leadChar c) : isWs c = false := by
  rcases h with rfl | rfl | rfl | rfl | rfl | rfl | rfl | hd
  · decide
  · decide
  · decide
  · decide
  · decide
  · decide
  · decide
  · cases hcw : isWs c with
    | false => rfl
    | true =>
        exfalso
        have : ((c = ' ' ∨ c = '\t') ∨ c = '\n') ∨ c = '\r' := by
          simpa [isWs] using hcw
        rcases this with ((rfl | rfl) | rfl) | rfl <;> exact absurd hd (by decide)

theorem leadChar_ne_rbrack {c : Char} (h : leadChar c) : ¬c = ']' := by
  rcases h with rfl | rfl | rfl | rfl | rfl | rfl | rfl | hd
  · decide
  · decide
  · decide
  · decide
  · decide
  · decide
  · decide
  · rintro rfl; exact absurd hd (by decide)

theorem leadChar_ne_rbrace {c : Char} (h : leadChar c) : ¬c = '}' := by
  rcases h with rfl | rfl | rfl | rfl | rfl | rfl | rfl | hd
  · decide
  · decide
  · decide
  · decide
  · decide
  · decide
  · decide
  · rintro rfl; exact absurd hd (by decide)

theorem skipWs_dumps (v : JVal) (r : List Char) :
    skipWs (dumpsVal v ++ r) = dumpsVal v ++ r := by
  obtain ⟨c, t, he, hl⟩ := dumps_head v
  rw [he]
  exact skipWs_not c (t ++ r) (leadChar_not_ws hl)

theorem dumpsItems_head (xs : List JVal) :
    ∃ t, dumpsItems xs = ',' :: t ∨ dumpsItems xs = ']' :: t := by
  cases xs with
  | nil => exact ⟨[], Or.inr rfl⟩
  | cons x xs => exact ⟨_, Or.inl rfl⟩

theorem dumpsMembers_head (ms : List (List Char × JVal)) :
    ∃ t, dumpsMembers ms = ',' :: t ∨ dumpsMembers ms = '}' :: t := by
  cases ms with
  | nil => exact ⟨[], Or.inr rfl⟩
  | cons m ms => exact ⟨_, Or.inl rfl⟩

theorem noDigitHead_dumpsItems (xs : List JVal) (r : List Char) :
    noDigitHead (dumpsItems xs ++ r) = true := by
  obtain ⟨t, h | h⟩ := dumpsItems_head xs <;> rw [h] <;> rfl

theorem noDigitHead_dumpsMembers (ms : List (List Char × JVal)) (r : List Char) :
    noDigitHead (dumpsMembers ms ++ r) = true := by
  obtain ⟨t, h | h⟩ := dumpsMembers_head ms <;> rw [h] <;> rfl

set_option maxHeartbeats 1600000 in
theorem escChar_length_pos (c : Char) : 1 ≤ (escChar c).length := by
  rw [escChar]
  split_ifs <;> simp [u4]

theorem len_le_flatten (s : List Char) : s.length ≤ ((s.map escChar).flatten).length := by
  induction s with
  | nil => simp
  | cons c s ih =>
      simp only [List.map_cons, List.flatten_cons, List.length_append, List.length_cons]
      have := escChar_length_pos c
      omega

theorem jfuel_pos (v : JVal) : 1 ≤ jfuel v := by
  cases v <;> simp [jfuel]

theorem jfuelItems_pos (xs : List JVal) : 1 ≤ jfuelItems xs := by
  cases xs <;> simp [jfuelItems]

theorem jfuelMembers_pos (ms : List (List Char × JVal)) : 1 ≤ jfuelMembers ms := by
  cases ms <;> simp [jfuelMembers]

theorem parseItems_succ (f : Nat) (cs : List Char) :
    parseItems (f + 1) cs = (match skipWs cs with
      | [] => none
      | c :: r =>
        if c = ']' then some ([], r)
        else if c = ',' then
          match parseVal f r with
          | some (x, r1) =>
            match parseItems f r1 with
            | some (xs, r2) => some (x :: xs, r2)
            | none => none
          | none => none
        else none) := rfl

theorem parseMembers_succ (f : Nat) (cs : List Char) :
    parseMembers (f + 1) cs = (match skipWs cs with
      | [] => none
      | c :: r =>
        if c = '}' then some ([], r)
        else if c = ',' then
          match skipWs r with
          | [] => none
          | c1 :: r1 =>
            if c1 = '"' then
              match parseStr (r1.length + 1) r1 with
              | some (k, r2) =>
                match skipWs r2 with
                | [] => none
                | c2 :: r3 =>
                  if c2 = ':' then
                    match parseVal f r3 with
                    | some (v, r4) =>
                      match parseMembers f r4 with
                      | some (ms, r5) => some ((k, v) :: ms, r5)
                      | none => none
                    | none => none
                  else none
              | none => none
            else none
        else none) := rfl

/-- The central round-trip statement, proved by induction on the fuel: a
serialized value (or item/member tail) parses back to exactly the original
value, leaving the rest of the input untouched. -/
theorem parse_dumps_all : ∀ fuel : Nat,
    (∀ (v : JVal) (rest : List Char), jfuel v ≤ fuel → noDigitHead rest = true →
      parseVal fuel (dumpsVal v ++ rest) = some (v, rest)) ∧
    (∀ (xs : List JVal) (rest : List Char), jfuelItems xs ≤ fuel →
      parseItems fuel (dumpsItems xs ++ rest) = some (xs, rest)) ∧
    (∀ (ms : List (List Char × JVal)) (rest : List Char), jfuelMembers ms ≤ fuel →
      parseMembers fuel (dumpsMembers ms ++ rest) = some (ms, rest)) := by
  intro fuel
  induction fuel with
  | zero =>
      refine ⟨fun v rest hle _ => ?_, fun xs rest hle => ?_, fun ms rest hle => ?_⟩
      · exact absurd hle (by have := jfuel_pos v; omega)
      · exact absurd hle (by have := jfuelItems_pos xs; omega)
      · exact absurd hle (by have := jfuelMembers_pos ms; omega)
  | succ fuel ih =>
      obtain ⟨ihV, ihI, ihM⟩ := ih
      refine ⟨fun v rest hle hrest => ?_, fun xs rest hle => ?_, fun ms rest hle => ?_⟩
      · cases v with
        | null => rfl
        | bool b => cases b <;> rfl
        | int n => exact parseVal_intChars fuel n rest hrest
        | str s =>
            have hshape : dumpsVal (.str s) ++ rest =
                '"' :: ((s.map escChar).flatten ++ ('"' :: rest)) := by
              show strChars s ++ rest = _
              rw [strChars]
              simp
            rw [hshape, parseVal_strHead]
            rw [parseStr_dumps s (((s.map escChar).flatten ++ ('"' :: rest)).length + 1) rest
              (by have := len_le_flatten s; simp only [List.length_append, List.length_cons]; omega)]
        | arr l =>
            cases l with
            | nil => rfl
            | cons x xs =>
                have hmax : 2 + max (jfuel x) (jfuelItems xs) ≤ fuel + 1 := by
                  have : jfuel (.arr (x :: xs)) = 2 + max (jfuel x) (jfuelItems xs) := by
                    simp [jfuel, jfuelItems]
                    omega
                  omega
                have hfx : jfuel x ≤ fuel := by omega
                have hfxs : jfuelItems xs ≤ fuel := by omega
                have hshape : dumpsVal (.arr (x :: xs)) ++ rest =
                    '[' :: (dumpsVal x ++ (dumpsItems xs ++ rest)) := by
                  show ('[' :: (dumpsVal x ++ dumpsItems xs)) ++ rest = _
                  simp
                rw [hshape, parseVal_arrHead, skipWs_dumps x (dumpsItems xs ++ rest)]
                obtain ⟨c, t, he, hl⟩ := dumps_head x
                rw [he]
                simp only [List.cons_append]
                rw [if_neg (leadChar_ne_rbrack hl)]
                rw [show c :: (t ++ (dumpsItems xs ++ rest)) =
                    dumpsVal x ++ (dumpsItems xs ++ rest) from by rw [he]; simp]
                rw [ihV x (dumpsItems xs ++ rest) hfx (noDigitHead_dumpsItems xs rest)]
                dsimp only
                rw [ihI xs rest hfxs]
        | obj l =>
            cases l with
            | nil => rfl
            | cons m ms =>
                obtain ⟨k, v⟩ := m
                have hmax : 2 + max (jfuel v) (jfuelMembers ms) ≤ fuel + 1 := by
                  have : jfuel (.obj ((k, v) :: ms)) =
                      2 + max (jfuel v) (jfuelMembers ms) := by
                    simp [jfuel, jfuelMembers]
                    omega
                  omega
                have hfv : jfuel v ≤ fuel := by omega
                have hfms : jfuelMembers ms ≤ fuel := by omega
                have hshape : dumpsVal (.obj ((k, v) :: ms)) ++ rest =
                    '{' :: ('"' :: ((k.map escChar).flatten ++
                      ('"' :: (':' :: (' ' :: (dumpsVal v ++ (dumpsMembers ms ++ rest))))))) := by
                  show ('{' :: (strChars k ++ ':' :: ' ' ::
                    (dumpsVal v ++ dumpsMembers ms))) ++ rest = _
                  rw [strChars]
                  simp
                rw [hshape, parseVal_objHead]
                rw [skipWs_not '"' _ (by decide)]
                dsimp only
                rw [if_neg (by decide : ¬('"' = '}')), if_pos rfl]
                rw [parseStr_dumps k _ _
                  (by have := len_le_flatten k; simp only [List.length_append, List.length_cons]; omega)]
                dsimp only
                rw [skipWs_not ':' _ (by decide)]
                dsimp only
                rw [if_pos rfl]
                rw [parseVal_ws fuel ' ' _ (by decide)]
                rw [ihV v (dumpsMembers ms ++ rest) hfv (noDigitHead_dumpsMembers ms rest)]
                dsimp only
                rw [ihM ms rest hfms]
      · cases xs with
        | nil => rfl
        | cons x xs =>
            have hmax : 1 + max (jfuel x) (jfuelItems xs) ≤ fuel + 1 := by
              have : jfuelItems (x :: xs) = 1 + max (jfuel x) (jfuelItems xs) := by
                simp [jfuelItems]
              omega
            have hfx : jfuel x ≤ fuel := by omega
            have hfxs : jfuelItems xs ≤ fuel := by omega
            have hshape : dumpsItems (x :: xs) ++ rest =
                ',' :: (' ' :: (dumpsVal x ++ (dumpsItems xs ++ rest))) := by
              show (',' :: ' ' :: (dumpsVal x ++ dumpsItems xs)) ++ rest = _
              simp
            rw [hshape, parseItems_succ, skipWs_not ',' _ (by decide)]
            dsimp only
            rw [if_neg (by decide : ¬(',' = ']')), if_pos rfl]
            rw [parseVal_ws fuel ' ' _ (by decide)]
            rw [ihV x (dumpsItems xs ++ rest) hfx (noDigitHead_dumpsItems xs rest)]
            dsimp only
            rw [ihI xs rest hfxs]
      · cases ms with
        | nil => rfl
        | cons m ms =>
            obtain ⟨k, v⟩ := m
            have hmax : 1 + max (jfuel v) (jfuelMembers ms) ≤ fuel + 1 := by
              have : jfuelMembers ((k, v) :: ms) = 1 + max (jfuel v) (jfuelMembers ms) := by
                simp [jfuelMembers]
              omega
            have hfv : jfuel v ≤ fuel := by omega
            have hfms : jfuelMembers ms ≤ fuel := by omega
            have hshape : dumpsMembers ((k, v) :: ms) ++ rest =
                ',' :: (' ' :: ('"' :: ((k.map escChar).flatten ++
                  ('"' :: (':' :: (' ' :: (dumpsVal v ++ (dumpsMembers ms ++ rest)))))))) := by
              show (',' :: ' ' :: (strChars k ++ ':' :: ' ' ::
                (dumpsVal v ++ dumpsMembers ms))) ++ rest = _
              rw [strChars]
              simp
            rw [hshape, parseMembers_succ, skipWs_not ',' _ (by decide)]
            dsimp only
            rw [if_neg (by decide : ¬(',' = '}')), if_pos rfl]
            rw [skipWs_ws ' ' _ (by decide), skipWs_not '"' _ (by decide)]
            dsimp only
            rw [if_pos rfl]
            rw [parseStr_dumps k _ _
              (by have := len_le_flatten k; simp only [List.length_append, List.length_cons]; omega)]
            dsimp only
            rw [skipWs_not ':' _ (by decide)]
            dsimp only
            rw [if_pos rfl]
            rw [parseVal_ws fuel ' ' _ (by decide)]
            rw [ihV v (dumpsMembers ms ++ rest) hfv (noDigitHead_dumpsMembers ms rest)]
            dsimp only
            rw [ihM ms rest hfms]

theorem dumps_len_pos (v : JVal) : 1 ≤ (dumpsVal v).length := by
  obtain ⟨c, t, he, _⟩ := dumps_head v
  rw [he]
  simp

theorem dumpsItems_len_pos (xs : List JVal) : 1 ≤ (dumpsItems xs).length := by
  obtain ⟨t, h | h⟩ := dumpsItems_head xs <;> rw [h] <;> simp

theorem dumpsMembers_len_pos (ms : List (List Char × JVal)) :
    1 ≤ (dumpsMembers ms).length := by
  obtain ⟨t, h | h⟩ := dumpsMembers_head ms <;> rw [h] <;> simp

mutual

theorem jfuel_le : ∀ v : JVal, jfuel v ≤ (dumpsVal v).length + 1
  | .null => by simp [jfuel]
  | .bool b => by cases b <;> simp [jfuel]
  | .int n => by simp [jfuel]
  | .str s => by simp [jfuel]
  | .arr l => by
      cases l with
      | nil =>
          simp only [jfuel, jfuelItems]
          have := dumps_len_pos (JVal.arr [])
          omega
      | cons x xs =>
          have h1 := jfuel_le x
          have h2 := jfuelItems_le xs
          have h3 := dumps_len_pos x
          have h4 := dumpsItems_len_pos xs
          have hj : jfuel (.arr (x :: xs)) = 2 + max (jfuel x) (jfuelItems xs) := by
            simp [jfuel, jfuelItems]; omega
          have hl : (dumpsVal (.arr (x :: xs))).length =
              1 + ((dumpsVal x).length + (dumpsItems xs).length) := by
            show ('[' :: (dumpsVal x ++ dumpsItems xs)).length = _
            simp
            omega
          omega
  | .obj l => by
      cases l with
      | nil =>
          simp only [jfuel, jfuelMembers]
          have := dumps_len_pos (JVal.obj [])
          omega
      | cons m ms =>
          have h1 := jfuel_le m.2
          have h2 := jfuelMembers_le ms
          have h3 := dumps_len_pos m.2
          have h4 := dumpsMembers_len_pos ms
          have hj : jfuel (.obj (m :: ms)) = 2 + max (jfuel m.2) (jfuelMembers ms) := by
            simp [jfuel, jfuelMembers]; omega
          have hl : (dumpsVal (.obj (m :: ms))).length =
              1 + ((strChars m.1).length + (2 + ((dumpsVal m.2).length +
                (dumpsMembers ms).length))) := by
            show ('{' :: (strChars m.1 ++ ':' :: ' ' ::
              (dumpsVal m.2 ++ dumpsMembers ms))).length = _
            simp
            omega
          omega

theorem jfuelItems_le : ∀ xs : List JVal, jfuelItems xs ≤ (dumpsItems xs).length
  | [] => by simp [jfuelItems, dumpsItems]
  | x :: xs => by
      have h1 := jfuel_le x
      have h2 := jfuelItems_le xs
      have hj : jfuelItems (x :: xs) = 1 + max (jfuel x) (jfuelItems xs) := by
        simp [jfuelItems]
      have hl : (dumpsItems (x :: xs)).length =
          2 + ((dumpsVal x).length + (dumpsItems xs).length) := by
        show (',' :: ' ' :: (dumpsVal x ++ dumpsItems xs)).length = _
        simp
        omega
      have h4 := dumpsItems_len_pos xs
      omega

theorem jfuelMembers_le :
    ∀ ms : List (List Char × JVal), jfuelMembers ms ≤ (dumpsMembers ms).length
  | [] => by simp [jfuelMembers, dumpsMembers]
  | m :: ms => by
      have h1 := jfuel_le m.2
      have h2 := jfuelMembers_le ms
      have hj : jfuelMembers (m :: ms) = 1 + max (jfuel m.2) (jfuelMembers ms) := by
        simp [jfuelMembers]
      have hl : (dumpsMembers (m :: ms)).length =
          2 + ((strChars m.1).length + (2 + ((dumpsVal m.2).length +
            (dumpsMembers ms).length))) := by
        show (',' :: ' ' :: (strChars m.1 ++ ':' :: ' ' ::
          (dumpsVal m.2 ++ dumpsMembers ms))).length = _
        simp
        omega
      have h4 := dumpsMembers_len_pos ms
      omega

end

/-- `json.loads` recovers any serialized value from `json.dumps` output. -/
theorem loads_dumps (v : JVal) : loads (dumpsVal v) = some v := by
  rw [loads]
  have h := (parse_dumps_all ((dumpsVal v).length + 1)).1 v []
    (by have := jfuel_le v; omega) rfl
  rw [List.append_nil] at h
  rw [h]
  rfl

/-! ### Round-trip of the framing layer -/

theorem hexChar_ascii (d : Nat) : 31 < (hexChar d).toNat ∧ (hexChar d).toNat < 127 := by
  unfold hexChar
  split <;> decide

theorem u4_ascii (n : Nat) : ∀ x ∈ u4 n, 31 < x.toNat ∧ x.toNat < 127 := by
  intro x hx
  rw [u4] at hx
  rcases List.mem_cons.mp hx with rfl | hx
  · decide
  rcases List.mem_cons.mp hx with rfl | hx
  · decide
  rcases List.mem_cons.mp hx with rfl | hx
  · exact hexChar_ascii _
  rcases List.mem_cons.mp hx with rfl | hx
  · exact hexChar_ascii _
  rcases List.mem_cons.mp hx with rfl | hx
  · exact hexChar_ascii _
  rcases List.mem_cons.mp hx with rfl | hx
  · exact hexChar_ascii _
  simp at hx

set_option maxHeartbeats 1600000 in
theorem escChar_ascii (c : Char) :
    ∀ x ∈ escChar c, 31 < x.toNat ∧ x.toNat < 127 := by
  intro x hx
  rw [escChar] at hx
  split_ifs at hx with h1 h2 h3 h4 h5 h6 h7 h8 h9 h10
  · simp at hx; rcases hx with rfl | rfl <;> decide
  · simp at hx; rcases hx with rfl | rfl <;> decide
  · simp at hx; rcases hx with rfl | rfl <;> decide
  · simp at hx; rcases hx with rfl | rfl <;> decide
  · simp at hx; rcases hx with rfl | rfl <;> decide
  · simp at hx; rcases hx with rfl | rfl <;> decide
  · simp at hx; rcases hx with rfl | rfl <;> decide
  · exact u4_ascii _ x hx
  · simp at hx; subst hx; omega
  · exact u4_ascii _ x hx
  · rcases List.mem_append.mp hx with hx | hx
    · exact u4_ascii _ x hx
    · exact u4_ascii _ x hx

theorem natChars_ascii (n : Nat) : ∀ x ∈ natChars n, 31 < x.toNat ∧ x.toNat < 127 := by
  intro x hx
  rw [natChars] at hx
  obtain ⟨d, _, rfl⟩ := List.mem_map.mp hx
  exact hexChar_ascii d

theorem intChars_ascii (n : Int) : ∀ x ∈ intChars n, 31 < x.toNat ∧ x.toNat < 127 := by
  intro x hx
  cases n with
  | ofNat m => exact natChars_ascii m x hx
  | negSucc m =>
      rw [intChars] at hx
      rcases List.mem_cons.mp hx with rfl | hx
      · decide
      · exact natChars_ascii (m + 1) x hx

theorem strChars_ascii (s : List Char) :
    ∀ x ∈ strChars s, 31 < x.toNat ∧ x.toNat < 127 := by
  intro x hx
  rw [strChars] at hx
  rcases List.mem_cons.mp hx with rfl | hx
  · decide
  · rcases List.mem_append.mp hx with hx | hx
    · obtain ⟨l, hl, hxl⟩ := List.mem_flatten.mp hx
      obtain ⟨ch, _, rfl⟩ := List.mem_map.mp hl
      exact escChar_ascii ch x hxl
    · simp at hx; subst hx; decide

mutual

theorem dumps_ascii : ∀ v : JVal, ∀ x ∈ dumpsVal v, 31 < x.toNat ∧ x.toNat < 127
  | .null => by
      intro x hx
      rw [show dumpsVal .null = ['n', 'u', 'l', 'l'] from rfl] at hx
      simp at hx
      rcases hx with rfl | rfl | rfl | rfl <;> decide
  | .bool true => by
      intro x hx
      rw [show dumpsVal (.bool true) = ['t', 'r', 'u', 'e'] from rfl] at hx
      simp at hx
      rcases hx with rfl | rfl | rfl | rfl <;> decide
  | .bool false => by
      intro x hx
      rw [show dumpsVal (.bool false) = ['f', 'a', 'l', 's', 'e'] from rfl] at hx
      simp at hx
      rcases hx with rfl | rfl | rfl | rfl | rfl <;> decide
  | .int n => by intro x hx; exact intChars_ascii n x hx
  | .str s => by intro x hx; exact strChars_ascii s x hx
  | .arr l => by
      cases l with
      | nil =>
          intro x hx
          rw [show dumpsVal (.arr []) = ['[', ']'] from rfl] at hx
          simp at hx
          rcases hx with rfl | rfl <;> decide
      | cons y ys =>
          intro x hx
          rcases List.mem_cons.mp hx with rfl | hx
          · decide
          · rcases List.mem_append.mp hx with hx | hx
            · exact dumps_ascii y x hx
            · exact dumpsItems_ascii ys x hx
  | .obj l => by
      cases l with
      | nil =>
          intro x hx
          rw [show dumpsVal (.obj []) = ['{', '}'] from rfl] at hx
          simp at hx
          rcases hx with rfl | rfl <;> decide
      | cons m ms =>
          intro x hx
          rcases List.mem_cons.mp hx with rfl | hx
          · decide
          · rcases List.mem_append.mp hx with hx | hx
            · exact strChars_ascii m.1 x hx
            · rcases List.mem_cons.mp hx with rfl | hx
              · decide
              · rcases List.mem_cons.mp hx with rfl | hx
                · decide
                · rcases List.mem_append.mp hx with hx | hx
                  · exact dumps_ascii m.2 x hx
                  · exact dumpsMembers_ascii ms x hx

theorem dumpsItems_ascii :
    ∀ xs : List JVal, ∀ x ∈ dumpsItems xs, 31 < x.toNat ∧ x.toNat < 127
  | [] => by
      intro x hx
      rw [show dumpsItems [] = [']'] from rfl] at hx
      simp at hx
      subst hx
      decide
  | y :: ys => by
      intro x hx
      rcases List.mem_cons.mp hx with rfl | hx
      · decide
      · rcases List.mem_cons.mp hx with rfl | hx
        · decide
        · rcases List.mem_append.mp hx with hx | hx
          · exact dumps_ascii y x hx
          · exact dumpsItems_ascii ys x hx

theorem dumpsMembers_ascii :
    ∀ ms : List (List Char × JVal), ∀ x ∈ dumpsMembers ms, 31 < x.toNat ∧ x.toNat < 127
  | [] => by
      intro x hx
      rw [show dumpsMembers [] = ['}'] from rfl] at hx
      simp at hx
      subst hx
      decide
  | m :: ms => by
      intro x hx
      rcases List.mem_cons.mp hx with rfl | hx
      · decide
      · rcases List.mem_cons.mp hx with rfl | hx
        · decide
        · rcases List.mem_append.mp hx with hx | hx
          · exact strChars_ascii m.1 x hx
          · rcases List.mem_cons.mp hx with rfl | hx
            · decide
            · rcases List.mem_cons.mp hx with rfl | hx
              · decide
              · rcases List.mem_append.mp hx with hx | hx
                · exact dumps_ascii m.2 x hx
                · exact dumpsMembers_ascii ms x hx

end

theorem dumps_no_nl (v : JVal) : ∀ x ∈ dumpsVal v, ¬x = '\n' := by
  intro x hx heq
  subst heq
  have := dumps_ascii v '\n' hx
  exact absurd this (by decide)

theorem dumps_no_cr (v : JVal) : ∀ x ∈ dumpsVal v, ¬x = '\r' := by
  intro x hx heq
  subst heq
  have := dumps_ascii v '\r' hx
  exact absurd this (by decide)

theorem readLine_append (l : List Char) (r : List Char)
    (hl : ∀ x ∈ l, ¬x = '\n') :
    readLine (l ++ '\n' :: r) = (l ++ ['\n'], r) := by
  induction l with
  | nil => rfl
  | cons c t ih =>
      have hc : ¬c = '\n' := hl c (by simp)
      simp only [List.cons_append, readLine, if_neg hc, List.append_eq]
      rw [ih (fun x hx => hl x (by simp [hx]))]

theorem rstripCRLF_append (l : List Char)
    (hl : ∀ x ∈ l, ¬(x = '\n' || x = '\r') = true) :
    rstripCRLF (l ++ ['\n']) = l := by
  rw [rstripCRLF, List.reverse_append]
  simp only [List.reverse_cons, List.reverse_nil, List.nil_append, List.singleton_append]
  rw [List.dropWhile_cons]
  simp only [decide_True, Bool.true_or, if_true, Bool.or_self, if_pos]
  cases hrev : l.reverse with
  | nil =>
      have : l = [] := by simpa using congrArg List.reverse hrev
      simp [this]
  | cons h t =>
      have hh : h ∈ l := by
        have : h ∈ l.reverse := by rw [hrev]; simp
        simpa using this
      rw [List.dropWhile_cons, if_neg (by simpa using hl h hh)]
      rw [← hrev, List.reverse_reverse]

theorem dumps_no_crlf (v : JVal) :
    ∀ x ∈ dumpsVal v, ¬(x = '\n' || x = '\r') = true := by
  intro x hx hb
  have h := dumps_ascii v x hx
  have h1 : x = '\n' ∨ x = '\r' := by simpa using hb
  rcases h1 with rfl | rfl <;> exact absurd h (by decide)

theorem dumpsMembers_concat (ms : List (List Char × JVal)) :
    ∃ t, dumpsMembers ms = t ++ ['}'] := by
  induction ms with
  | nil => exact ⟨[], rfl⟩
  | cons m ms ih =>
      obtain ⟨t, ht⟩ := ih
      refine ⟨',' :: ' ' :: (strChars m.1 ++ ':' :: ' ' :: (dumpsVal m.2 ++ t)), ?_⟩
      show ',' :: ' ' :: (strChars m.1 ++ ':' :: ' ' :: (dumpsVal m.2 ++ dumpsMembers ms)) = _
      rw [ht]
      simp

theorem obj_concat (kvs : List (List Char × JVal)) :
    ∃ t, dumpsVal (.obj kvs) = t ++ ['}'] := by
  cases kvs with
  | nil => exact ⟨['{'], rfl⟩
  | cons m ms =>
      obtain ⟨t, ht⟩ := dumpsMembers_concat ms
      refine ⟨'{' :: (strChars m.1 ++ ':' :: ' ' :: (dumpsVal m.2 ++ t)), ?_⟩
      show '{' :: (strChars m.1 ++ ':' :: ' ' :: (dumpsVal m.2 ++ dumpsMembers ms)) = _
      rw [ht]
      simp

theorem obj_head_lbrace (kvs : List (List Char × JVal)) :
    ∃ t, dumpsVal (.obj kvs) = '{' :: t := by
  cases kvs with
  | nil => exact ⟨['}'], rfl⟩
  | cons m ms => exact ⟨_, rfl⟩

theorem dumps_ne_nil (v : JVal) : dumpsVal v ≠ [] := by
  obtain ⟨c, t, he, _⟩ := dumps_head v
  rw [he]
  simp

theorem stripWs_obj (kvs : List (List Char × JVal)) :
    stripWs (dumpsVal (.obj kvs)) = dumpsVal (.obj kvs) := by
  obtain ⟨t0, he⟩ := obj_head_lbrace kvs
  obtain ⟨t1, hend⟩ := obj_concat kvs
  have h1 : (dumpsVal (.obj kvs)).dropWhile isWs = dumpsVal (.obj kvs) := by
    rw [he, List.dropWhile_cons, if_neg (by simp [isWs])]
  have h2 : (dumpsVal (.obj kvs)).reverse.dropWhile isWs = (dumpsVal (.obj kvs)).reverse := by
    rw [hend, List.reverse_append]
    simp only [List.reverse_cons, List.reverse_nil, List.nil_append, List.singleton_append]
    rw [List.dropWhile_cons, if_neg (by simp [isWs])]
  rw [stripWs, h1, h2, List.reverse_reverse]

theorem clPrefix_obj (kvs : List (List Char × JVal)) :
    clPrefix.isPrefixOf (dumpsVal (.obj kvs)) = false := by
  obtain ⟨t0, he⟩ := obj_head_lbrace kvs
  rw [he]
  rfl

theorem readerLoop_succ (fuel : Nat) (stream : List Char) :
    readerLoop (fuel + 1) stream =
      (let p := readLine stream
       if p.1 = [] then []
       else
         let lineStripped := rstripCRLF p.1
         if clPrefix.isPrefixOf lineStripped then
           match parseHeaderInt (stripWs (lineStripped.drop clPrefix.length)) with
           | none => readerLoop fuel p.2
           | some len =>
             let q := readLine p.2
             let body := if len < 0 then q.2 else q.2.take len.toNat
             let rest := if len < 0 then [] else q.2.drop len.toNat
             if body = [] then readerLoop fuel rest
             else stripWs body :: readerLoop fuel rest
         else
           let candidate := stripWs lineStripped
           if candidate = [] then readerLoop fuel p.2
           else if candidate.head? = some '{' then candidate :: readerLoop fuel p.2
           else readerLoop fuel p.2) := rfl

theorem readerLoop_nil (fuel : Nat) : readerLoop fuel [] = [] := by
  cases fuel <;> rfl

theorem readerRun_obj (kvs : List (List Char × JVal)) :
    readerRun (sendLine (.obj kvs)) = [dumpsVal (.obj kvs)] := by
  rw [readerRun, sendLine]
  have hlen : (dumpsVal (.obj kvs) ++ ['\n']).length + 1 =
      ((dumpsVal (.obj kvs)).length + 1) + 1 := by simp
  rw [hlen, readerLoop_succ]
  rw [readLine_append _ [] (dumps_no_nl (.obj kvs))]
  dsimp only
  rw [if_neg (by simp : ¬(dumpsVal (.obj kvs) ++ ['\n'] = []))]
  rw [rstripCRLF_append _ (dumps_no_crlf (.obj kvs))]
  rw [clPrefix_obj kvs]
  rw [if_neg (by simp)]
  rw [stripWs_obj kvs]
  rw [if_neg (dumps_ne_nil (.obj kvs))]
  obtain ⟨t0, he⟩ := obj_head_lbrace kvs
  rw [he]
  rw [if_pos (by simp)]
  rw [readerLoop_nil]

/-- Encode-then-decode over the wire: a protocol message (a JSON object, as
built by `_send`) written as one newline-terminated line is recovered
exactly by the reader plus `json.loads`. -/
theorem decodeStream_obj (kvs : List (List Char × JVal)) :
    decodeStream (sendLine (.obj kvs)) = [some (.obj kvs)] := by
  rw [decodeStream, readerRun_obj]
  simp [loads_dumps]

/-- C7: for every protocol message object (a JSON object with duplicate-free
keys at every level, as every Python dict is), encoding it as `_send` does —
serializing to JSON with a single trailing newline, written in one call —
and then decoding the resulting frame from the byte stream through `_reader`
and `json.loads` reproduces the message exactly: encode-then-decode is the
identity on protocol messages. -/
theorem claim7_wire_roundtrip (kvs : List (List Char × JVal))
    (h : jWF (.obj kvs) = true) :
    decodeStream (sendLine (.obj kvs)) = [some (.obj kvs)] :=
  decodeStream_obj kvs

/-- Witness for C7 at a concrete `initialize`-style message. -/
theorem claim7_wire_roundtrip_witness :
    jWF (.obj [( ['i', 'd'], .int 0 ),
      ( ['m', 'e', 't', 'h', 'o', 'd'], .str ['p', 'i', 'n', 'g'] )]) = true ∧
    decodeStream (sendLine (.obj [( ['i', 'd'], .int 0 ),
      ( ['m', 'e', 't', 'h', 'o', 'd'], .str ['p', 'i', 'n', 'g'] )])) =
      [some (.obj [( ['i', 'd'], .int 0 ),
        ( ['m', 'e', 't', 'h', 'o', 'd'], .str ['p', 'i', 'n', 'g'] )])] :=
  ⟨by decide, claim7_wire_roundtrip _ (by decide)⟩

/-! ### Python runtime values and the result normalizer

`PyVal` models the dynamically typed values `_parse_call_result`
(`mcp_client_adapter.py`, identical in `mcp_client.py`) operates on: `None`,
booleans, machine integers, strings, lists, dicts (insertion-ordered
association lists with distinct keys), and generic objects carrying a class
name and attributes (SDK objects such as `CallToolResult` and
`TextContent`).  Floats are outside the model. -/

inductive PyVal : Type where
  | pNone : PyVal
  | pBool (b : Bool) : PyVal
  | pInt (n : Int) : PyVal
  | pStr (s : String) : PyVal
  | pList (xs : List PyVal) : PyVal
  | pDict (kvs : List (String × PyVal)) : PyVal
  | pObj (cls : String) (attrs : List (String × PyVal)) : PyVal

mutual

/-- Boolean equality on `PyVal`. -/
def beqP : PyVal → PyVal → Bool
  | .pNone, .pNone => true
  | .pBool a, .pBool b => a == b
  | .pInt a, .pInt b => a == b
  | .pStr a, .pStr b => a == b
  | .pList xs, .pList ys => beqPList xs ys
  | .pDict ms, .pDict ns => beqPPairs ms ns
  | .pObj c1 a1, .pObj c2 a2 => c1 == c2 && beqPPairs a1 a2
  | _, _ => false

/-- Boolean equality on lists of `PyVal`. -/
def beqPList : List PyVal → List PyVal → Bool
  | [], [] => true
  | x :: xs, y :: ys => beqP x y && beqPList xs ys
  | _, _ => false

/-- Boolean equality on keyed pair lists of `PyVal`. -/
def beqPPairs : List (String × PyVal) → List (String × PyVal) → Bool
  | [], [] => true
  | m :: ms, n :: ns => (m.1 == n.1 && beqP m.2 n.2) && beqPPairs ms ns
  | _, _ => false

end

mutual

theorem beqP_iff : ∀ a b : PyVal, beqP a b = true ↔ a = b
  | .pNone, b => by cases b <;> simp [beqP]
  | .pBool a, b => by cases b <;> simp [beqP]
  | .pInt a, b => by cases b <;> simp [beqP]
  | .pStr a, b => by cases b <;> simp [beqP]
  | .pList xs, b => by
      cases b with
      | pList ys => simpa [beqP] using beqPList_iff xs ys
      | _ => simp [beqP]
  | .pDict ms, b => by
      cases b with
      | pDict ns => simpa [beqP] using beqPPairs_iff ms ns
      | _ => simp [beqP]
  | .pObj c1 a1, b => by
      cases b with
      | pObj c2 a2 =>
          simp only [beqP, Bool.and_eq_true, beq_iff_eq, PyVal.pObj.injEq]
          rw [beqPPairs_iff a1 a2]
      | _ => simp [beqP]

theorem beqPList_iff : ∀ xs ys : List PyVal, beqPList xs ys = true ↔ xs = ys
  | [], ys => by cases ys <;> simp [beqPList]
  | x :: xs, ys => by
      cases ys with
      | nil => simp [beqPList]
      | cons y ys =>
          simp only [beqPList, Bool.and_eq_true, List.cons.injEq]
          exact and_congr (beqP_iff x y) (beqPList_iff xs ys)

theorem beqPPairs_iff :
    ∀ ms ns : List (String × PyVal), beqPPairs ms ns = true ↔ ms = ns
  | [], ns => by cases ns <;> simp [beqPPairs]
  | m :: ms, ns => by
      cases ns with
      | nil => simp [beqPPairs]
      | cons n ns =>
          simp only [beqPPairs, Bool.and_eq_true, List.cons.injEq, beq_iff_eq]
          rw [beqP_iff m.2 n.2, beqPPairs_iff ms ns, Prod.ext_iff]

end

instance : DecidableEq PyVal :=
  fun a b => decidable_of_iff (beqP a b = true) (beqP_iff a b)

/-- First-match lookup in a keyed pair list (Python dict/attribute access;
keys of real dicts are distinct, so first match is the match). -/
def alookup : List (String × PyVal) → String → Option PyVal
  | [], _ => none
  | (k, v) :: rest, key => if k = key then some v else alookup rest key

/-- Python truthiness. -/
def truthy : PyVal → Bool
  | .pNone => false
  | .pBool b => b
  | .pInt n => n != 0
  | .pStr s => s != ""
  | .pList xs => !xs.isEmpty
  | .pDict kvs => !kvs.isEmpty
  | .pObj _ _ => true

/-- `getattr(v, name, None)`-style access: only objects carry attributes. -/
def getattrOpt : PyVal → String → Option PyVal
  | .pObj _ attrs, name => alookup attrs name
  | _, _ => none

/-- `getattr(v, name, d)`. -/
def getattrD (v : PyVal) (name : String) (d : PyVal) : PyVal :=
  (getattrOpt v name).getD d

/-- `isinstance(v, (dict, list, str, int, float, bool))` (floats are outside
the model). -/
def isJsonLike : PyVal → Bool
  | .pDict _ => true
  | .pList _ => true
  | .pStr _ => true
  | .pInt _ => true
  | .pBool _ => true
  | _ => false

/-- The `set(structured.keys()) == \x7b"result"\x7d` unwrap: a dict with
exactly the key `result` whose value is JSON-serializable yields that inner
value; anything else is kept as-is. -/
def unwrapResult : PyVal → PyVal
  | .pDict [(k, v)] => if k = "result" && isJsonLike v then v else .pDict [(k, v)]
  | s => s

/-- The early-return decision on `structuredContent`: when truthy and of a
JSON-serializable type it is returned (after the `result` unwrap); a truthy
non-serializable value falls through. -/
def structuredReturn (structured : PyVal) : Option PyVal :=
  if truthy structured then
    if isJsonLike structured then some (unwrapResult structured)
    else none
  else none

/-- `for blk in contents`: what Python iteration yields, `none` when the
value is not iterable (iterating it raises `TypeError`). -/
def iterElems : PyVal → Option (List PyVal)
  | .pList xs => some xs
  | .pStr s => some (s.data.map (fun c => .pStr (String.mk [c])))
  | .pDict kvs => some (kvs.map (fun kv => PyVal.pStr kv.1))
  | _ => none

/-- Text extracted from one content block: a string-valued `text` attribute,
else a string-valued `value` attribute, else nothing. -/
def blkText (blk : PyVal) : Option String :=
  match getattrOpt blk "text" with
  | some (.pStr t) => some t
  | _ =>
    match getattrOpt blk "value" with
    | some (.pStr t) => some t
    | _ => none

/-- `getattr(call_result, 'content', []) or []`. -/
def contentOf (r : PyVal) : PyVal :=
  let c := getattrD r "content" (.pList [])
  if truthy c then c else .pList []

/-- Comma-separated rendering used by `pyRepr`. -/
def joinComma : List String → String
  | [] => ""
  | [s] => s
  | s :: rest => s ++ ", " ++ joinComma rest

mutual

/-- A model of Python `repr` on the value universe (an executable rendering;
only its use as an opaque tag matters to the normalizer). -/
def pyRepr : PyVal → String
  | .pNone => "None"
  | .pBool true => "True"
  | .pBool false => "False"
  | .pInt n => String.mk (intChars n)
  | .pStr s => "'" ++ s ++ "'"
  | .pList xs => "[" ++ joinComma (pyReprList xs) ++ "]"
  | .pDict kvs => "\x7b" ++ joinComma (pyReprPairs kvs) ++ "\x7d"
  | .pObj cls attrs => cls ++ "(" ++ joinComma (pyReprPairs attrs) ++ ")"

/-- `repr` of the elements of a list. -/
def pyReprList : List PyVal → List String
  | [] => []
  | x :: xs => pyRepr x :: pyReprList xs

/-- `repr` of the pairs of a dict or the attributes of an object. -/
def pyReprPairs : List (String × PyVal) → List String
  | [] => []
  | (k, v) :: rest => (k ++ ": " ++ pyRepr v) :: pyReprPairs rest

end

/-- The body of `_parse_call_result` inside its `try`: `none` models the
`TypeError` raised when the `content` value is not iterable; otherwise the
returned normalization.  Mirrors `MCPAdapter._parse_call_result`
(`mcp_client_adapter.py`, lines 317-353; byte-identical in
`mcp_client.py`). -/
def parseInner (r : PyVal) : Option PyVal :=
  match structuredReturn (getattrD r "structuredContent" .pNone) with
  | some v => some v
  | none =>
    match iterElems (contentOf r) with
    | none => none
    | some bs =>
      match bs.filterMap blkText with
      | [t] => some (.pStr t)
      | [] =>
        if truthy (getattrD r "structuredContent" .pNone) then
          some (getattrD r "structuredContent" .pNone)
        else some (.pDict [("raw", .pStr (pyRepr r))])
      | ts => some (.pDict [("content", .pList (ts.map PyVal.pStr))])

/-- `_parse_call_result`: the `try` body, with any exception caught and
returned as a structured parse-failure value (the model fixes the message's
exception text to `TypeError`). -/
def parse_call_result (r : PyVal) : PyVal :=
  match parseInner r with
  | some v => v
  | none => .pDict [("error", .pStr "Failed to parse tool result: TypeError")]

/-- A `TextContent`-style block carrying a string `text` attribute. -/
def textBlock (t : String) : PyVal :=
  .pObj "TextContent" [("text", .pStr t)]

/-- A `CallToolResult`-style SDK reply object with the given attributes. -/
def callResult (attrs : List (String × PyVal)) : PyVal :=
  .pObj "CallToolResult" attrs

/-- C1 counterexample: the reply carrying exactly the claim's two textual
blocks normalizes to the dict with key `content` holding the list of texts,
not to the bare ordered list of strings the claim states. -/
theorem claim1_counterexample :
    parse_call_result (callResult [("content", .pList [textBlock "a", textBlock "b"])]) =
      .pDict [("content", .pList [.pStr "a", .pStr "b"])] ∧
    parse_call_result (callResult [("content", .pList [textBlock "a", textBlock "b"])]) ≠
      .pList [.pStr "a", .pStr "b"] :=
  ⟨by decide, by decide⟩

/-- C1 (amended): when no usable structured content is present (absent,
falsy, or not of a JSON-serializable type): a reply whose content blocks
yield exactly one text normalizes to that bare string, and one yielding
several texts normalizes to the dict `\x7b"content": [texts]\x7d` (not a bare
list); independently, when the structured result object is a dict with
exactly the key `result` whose value is of a JSON-serializable type, the
inner value is unwrapped and returned. -/
theorem claim1_amended (r : PyVal) :
    (∀ bs t, structuredReturn (getattrD r "structuredContent" .pNone) = none →
        iterElems (contentOf r) = some bs → bs.filterMap blkText = [t] →
        parse_call_result r = .pStr t) ∧
    (∀ bs t1 t2 ts, structuredReturn (getattrD r "structuredContent" .pNone) = none →
        iterElems (contentOf r) = some bs → bs.filterMap blkText = t1 :: t2 :: ts →
        parse_call_result r =
          .pDict [("content", .pList ((t1 :: t2 :: ts).map PyVal.pStr))]) ∧
    (∀ v, getattrD r "structuredContent" .pNone = .pDict [("result", v)] →
        isJsonLike v = true → parse_call_result r = v) := by
  refine ⟨fun bs t hs hi ht => ?_, fun bs t1 t2 ts hs hi ht => ?_, fun v hs hv => ?_⟩
  · simp only [parse_call_result, parseInner, hs, hi, ht]
  · simp only [parse_call_result, parseInner, hs, hi, ht]
  · have hsr : structuredReturn (getattrD r "structuredContent" .pNone) = some v := by
      rw [hs, structuredReturn]
      simp [unwrapResult, truthy, hv, show isJsonLike (PyVal.pDict [("result", v)]) = true from rfl]
    simp only [parse_call_result, parseInner, hsr]

/-- Witness for C1 (amended) at the spec's three examples. -/
theorem claim1_witness :
    parse_call_result (callResult [("content", .pList [textBlock "42"])]) = .pStr "42" ∧
    parse_call_result (callResult [("content", .pList [textBlock "a", textBlock "b"])]) =
      .pDict [("content", .pList [.pStr "a", .pStr "b"])] ∧
    parse_call_result
        (callResult [("structuredContent", .pDict [("result", .pDict [("x", .pInt 1)])])]) =
      .pDict [("x", .pInt 1)] :=
  ⟨(claim1_amended _).1 _ "42" rfl rfl rfl,
   (claim1_amended _).2.1 _ "a" "b" [] rfl rfl rfl,
   (claim1_amended _).2.2 _ rfl rfl⟩

/-- C9 counterexample: a reply whose `content` attribute is not iterable
(here an int) makes the normalizer's `try` body raise `TypeError`; the
caught exception is returned as a structured parse-failure value, not as the
`\x7b"raw": repr(reply)\x7d` fallback the claim states. -/
theorem claim9_counterexample :
    parse_call_result (callResult [("content", .pInt 1)]) =
      .pDict [("error", .pStr "Failed to parse tool result: TypeError")] ∧
    parse_call_result (callResult [("content", .pInt 1)]) ≠
      .pDict [("raw", .pStr (pyRepr (callResult [("content", .pInt 1)])))] :=
  ⟨by decide, by decide⟩

/-- C9 (amended): the normalizer is total — every reply value maps to some
value, never an uncaught exception (the model's `parse_call_result` is a
total function whose `TypeError` path is the caught-exception branch).  When
the content value iterates but yields no textual block and no truthy
structured content exists, the opaque `\x7b"raw": repr(reply)\x7d` fallback is
returned; when the content value is not iterable (and structured content is
unusable), the caught internal exception is surfaced as a structured
`\x7b"error": ...\x7d` value instead of the raw fallback. -/
theorem claim9_amended (r : PyVal) :
    (structuredReturn (getattrD r "structuredContent" .pNone) = none →
      iterElems (contentOf r) = none →
      parse_call_result r =
        .pDict [("error", .pStr "Failed to parse tool result: TypeError")]) ∧
    (∀ bs, iterElems (contentOf r) = some bs → bs.filterMap blkText = [] →
      truthy (getattrD r "structuredContent" .pNone) = false →
      parse_call_result r = .pDict [("raw", .pStr (pyRepr r))]) := by
  refine ⟨fun hs hi => ?_, fun bs hi ht hf => ?_⟩
  · simp only [parse_call_result, parseInner, hs, hi]
  · have hs : structuredReturn (getattrD r "structuredContent" .pNone) = none := by
      rw [structuredReturn, hf]
      rfl
    simp only [parse_call_result, parseInner, hs, hi, ht, hf]
    rfl

/-- Witness for C9 (amended) at two concrete replies. -/
theorem claim9_witness :
    parse_call_result (callResult [("content", .pBool true)]) =
      .pDict [("error", .pStr "Failed to parse tool result: TypeError")] ∧
    parse_call_result (callResult []) =
      .pDict [("raw", .pStr (pyRepr (callResult [])))] :=
  ⟨(claim9_amended _).1 rfl rfl, (claim9_amended _).2 [] rfl rfl rfl⟩

/-- C10: structured content that is present but falsy (empty dict, empty
list, empty string, zero, false) is not returned as-is: the normalizer falls
through to text-block extraction, and when no textual block exists either,
the result is the `\x7b"raw": repr(reply)\x7d` fallback rather than the falsy
structured object. -/
theorem claim10_falsy_structured (r s : PyVal)
    (hats : getattrOpt r "structuredContent" = some s)
    (hfalsy : truthy s = false) :
    (∀ bs t, iterElems (contentOf r) = some bs → bs.filterMap blkText = [t] →
        parse_call_result r = .pStr t) ∧
    (∀ bs, iterElems (contentOf r) = some bs → bs.filterMap blkText = [] →
        parse_call_result r = .pDict [("raw", .pStr (pyRepr r))]) := by
  have hd : getattrD r "structuredContent" .pNone = s := by
    rw [getattrD, hats]
    rfl
  have hs : structuredReturn s = none := by
    rw [structuredReturn, hfalsy]
    rfl
  refine ⟨fun bs t hi ht => ?_, fun bs hi ht => ?_⟩
  · simp only [parse_call_result, parseInner, hd, hs, hi, ht]
  · simp only [parse_call_result, parseInner, hd, hs, hi, ht, hfalsy]
    rfl

/-- Witness for C10: an empty structured dict falls through to the single
text block when one exists, and to the raw fallback when none does. -/
theorem claim10_witness :
    parse_call_result (callResult
      [("structuredContent", .pDict []), ("content", .pList [textBlock "ok"])]) =
        .pStr "ok" ∧
    parse_call_result (callResult [("structuredContent", .pDict []), ("content", .pList [])]) =
      .pDict [("raw", .pStr (pyRepr
        (callResult [("structuredContent", .pDict []), ("content", .pList [])])))] :=
  ⟨(claim10_falsy_structured
      (callResult [("structuredContent", .pDict []), ("content", .pList [textBlock "ok"])])
      (.pDict []) rfl rfl).1 _ "ok" rfl rfl,
   (claim10_falsy_structured
      (callResult [("structuredContent", .pDict []), ("content", .pList [])])
      (.pDict []) rfl rfl).2 [] rfl rfl⟩

/-! ### Tool catalog and the OpenAI tool spec
(mcp_client_adapter.py `build_openai_tools_spec` lines 146-175 and
`resolve_function_name` lines 173-175; `self._tools` maps the qualified
name `server:tool` to a metadata dict with keys server/name/description/schema,
modelled as an insertion-ordered association list). -/

structure ToolMeta where
  server : String
  name : String
  description : String
  schema : PyVal
deriving DecidableEq

structure SpecEntry where
  name : String
  description : String
  parameters : PyVal
deriving DecidableEq

/-- Python `dict.get` on an insertion-ordered dict held as an association
list: the first binding of the key, if any. -/
def keyLookup {α : Type} : List (String × α) → String → Option α
  | [], _ => none
  | (k, v) :: rest, key => if k = key then some v else keyLookup rest key

/-- Python dict assignment `d[k] = v`: replace the first binding of `k` in
place when the key exists, else append a new binding. -/
def keyInsert {α : Type} : List (String × α) → String → α → List (String × α)
  | [], key, v => [(key, v)]
  | (k, w) :: rest, key, v =>
      if k = key then (k, v) :: rest else (k, w) :: keyInsert rest key v

/-- The value `counts[base]` after the first loop of build_openai_tools_spec:
how many registered tools carry the local name `base`. -/
def countBase (tools : List (String × ToolMeta)) (base : String) : Nat :=
  (tools.filter (fun p => p.2.name == base)).length

/-- The name a tool is exposed under in the spec:
`f"\x7bmeta['server']\x7d_\x7bbase\x7d"` when `counts[base] > 1`, else the
bare local name. -/
def exposedName (tools : List (String × ToolMeta)) (meta : ToolMeta) : String :=
  if 1 < countBase tools meta.name then meta.server ++ "_" ++ meta.name else meta.name

/-- One iteration of the second loop of build_openai_tools_spec: emit the
spec entry for this tool (the schema defaulting to
`\x7b"type": "object", "properties": \x7b\x7d\x7d` when falsy) and record
exposed → qualified in the function-name map. -/
def buildStep (tools : List (String × ToolMeta))
    (acc : List SpecEntry × List (String × String)) (p : String × ToolMeta) :
    List SpecEntry × List (String × String) :=
  let exposed := exposedName tools p.2
  let schema := if truthy p.2.schema then p.2.schema
    else .pDict [("type", .pStr "object"), ("properties", .pDict [])]
  (acc.1 ++ [⟨exposed, p.2.description, schema⟩], keyInsert acc.2 exposed p.1)

/-- build_openai_tools_spec: `self._function_name_map.clear()` runs first, so
the fold starts from the empty map whatever the previous build left there;
the result is the spec list together with the rebuilt function-name map. -/
def build_openai_tools_spec (tools : List (String × ToolMeta)) :
    List SpecEntry × List (String × String) :=
  tools.foldl (buildStep tools) ([], [])

/-- resolve_function_name: `self._function_name_map.get(name)`. -/
def resolve_function_name (fmap : List (String × String)) (name : String) :
    Option String :=
  keyLookup fmap name

theorem two_mem_one_lt_length {α : Type} {a b : α} {l : List α}
    (ha : a ∈ l) (hb : b ∈ l) (hne : a ≠ b) : 1 < l.length := by
  induction l with
  | nil => cases ha
  | cons x t ih =>
    rcases List.mem_cons.mp ha with rfl | ha'
    · rcases List.mem_cons.mp hb with rfl | hb'
      · exact absurd rfl hne
      · have := List.length_pos_of_mem hb'
        simp only [List.length_cons]
        omega
    · rcases List.mem_cons.mp hb with rfl | hb'
      · have := List.length_pos_of_mem ha'
        simp only [List.length_cons]
        omega
      · have := ih ha' hb'
        simp only [List.length_cons]
        omega

theorem exists_ne_of_one_lt_length {α : Type} {l : List α} {a : α}
    (hnd : l.Nodup) (ha : a ∈ l) (hl : 1 < l.length) : ∃ b ∈ l, b ≠ a := by
  match l, hnd, ha, hl with
  | x :: y :: t, hnd, ha, _ =>
    have hxy : x ≠ y := by
      intro h
      exact (List.nodup_cons.mp hnd).1 (h ▸ List.mem_cons_self y t)
    by_cases hax : a = x
    · exact ⟨y, List.mem_cons_of_mem x (List.mem_cons_self y t),
        fun h => hxy (hax.symm.trans h.symm)⟩
    · exact ⟨x, List.mem_cons_self x (y :: t), fun h => hax h.symm⟩

theorem keyLookup_append_none {α : Type} (a b : List (String × α)) (k : String)
    (h : keyLookup a k = none) : keyLookup (a ++ b) k = keyLookup b k := by
  induction a with
  | nil => rfl
  | cons p rest ih =>
    obtain ⟨k0, w⟩ := p
    rw [keyLookup] at h
    by_cases hk : k0 = k
    · rw [if_pos hk] at h
      cases h
    · rw [if_neg hk] at h
      rw [List.cons_append, keyLookup, if_neg hk]
      exact ih h

theorem keyInsert_fresh {α : Type} (m : List (String × α)) (k : String) (v : α)
    (h : keyLookup m k = none) : keyInsert m k v = m ++ [(k, v)] := by
  induction m with
  | nil => rfl
  | cons p rest ih =>
    obtain ⟨k0, w⟩ := p
    rw [keyLookup] at h
    by_cases hk : k0 = k
    · rw [if_pos hk] at h
      cases h
    · rw [if_neg hk] at h
      rw [keyInsert, if_neg hk, ih h, List.cons_append]

theorem buildFold_snd (tools : List (String × ToolMeta)) :
    ∀ (l : List (String × ToolMeta)) (acc : List SpecEntry × List (String × String)),
      (l.map (fun p => exposedName tools p.2)).Nodup →
      (∀ k ∈ l.map (fun p => exposedName tools p.2), keyLookup acc.2 k = none) →
      (l.foldl (buildStep tools) acc).2 =
        acc.2 ++ l.map (fun p => (exposedName tools p.2, p.1)) := by
  intro l
  induction l with
  | nil =>
    intro acc _ _
    simp
  | cons p rest ih =>
    intro acc hnd hfresh
    have hfp : keyLookup acc.2 (exposedName tools p.2) = none :=
      hfresh _ (by simp)
    have hstep : (buildStep tools acc p).2 = acc.2 ++ [(exposedName tools p.2, p.1)] :=
      keyInsert_fresh _ _ _ hfp
    rw [List.map_cons] at hnd
    have hnd' := List.nodup_cons.mp hnd
    have hfr : ∀ k ∈ rest.map (fun q => exposedName tools q.2),
        keyLookup (buildStep tools acc p).2 k = none := by
      intro k hk
      rw [hstep, keyLookup_append_none _ _ _ (hfresh _ (by simp [hk]))]
      have hne : ¬ exposedName tools p.2 = k := by
        intro h
        exact hnd'.1 (h ▸ hk)
      rw [keyLookup, if_neg hne]
      rfl
    rw [List.foldl_cons, ih (buildStep tools acc p) hnd'.2 hfr, hstep,
      List.append_assoc, List.map_cons, List.singleton_append]

theorem keyLookup_map_self {α : Type} (g : (String × α) → String) :
    ∀ (l : List (String × α)) (p : String × α),
      (l.map g).Nodup → p ∈ l →
      keyLookup (l.map (fun q => (g q, q.1))) (g p) = some p.1 := by
  intro l
  induction l with
  | nil =>
    intro p _ hp
    cases hp
  | cons q rest ih =>
    intro p hnd hp
    rw [List.map_cons] at hnd
    have hnd' := List.nodup_cons.mp hnd
    rw [List.map_cons, keyLookup]
    rcases List.mem_cons.mp hp with rfl | hp'
    · rw [if_pos rfl]
    · have hne : ¬ g q = g p := by
        intro h
        exact hnd'.1 (h ▸ List.mem_map_of_mem g hp')
      rw [if_neg hne]
      exact ih p hnd'.2 hp'

/-- The registry states used as C2's counterexample: a tool whose LOCAL name
`a_b` is unique (so it is exposed verbatim), next to two servers `a` and `z`
both offering a tool `b` (so those are exposed as `a_b` and `z_b`). -/
def toolsClash : List (String × ToolMeta) :=
  [("s:a_b", ⟨"s", "a_b", "", .pNone⟩),
   ("a:b", ⟨"a", "b", "", .pNone⟩),
   ("z:b", ⟨"z", "b", "", .pNone⟩)]

/-- C2 counterexample: in a well-formed registry (duplicate-free qualified
keys of the shape server:tool), the spec entry built for the tool `s:a_b`
carries the exposed name `a_b`, but so does the disambiguated entry for
`a:b`; resolve_function_name maps `a_b` to `a:b`, not to the qualified name
`s:a_b` the first entry was derived from. The claim's resolve-back property
fails without an injectivity assumption on the exposed names. -/
theorem claim2_counterexample :
    ((toolsClash.map Prod.fst).Nodup ∧
      ∀ q ∈ toolsClash, q.1 = q.2.server ++ ":" ++ q.2.name) ∧
    (build_openai_tools_spec toolsClash).1.map SpecEntry.name = ["a_b", "a_b", "z_b"] ∧
    resolve_function_name (build_openai_tools_spec toolsClash).2 "a_b" = some "a:b" ∧
    ("a:b" : String) ≠ "s:a_b" := by
  decide

/-- C2: in a registry whose qualified keys are duplicate-free and of the
shape server:tool, and whose exposed names are pairwise distinct, every
registered tool is exposed under server_localname exactly when its local
name is carried by more than one registered tool — equivalently, by a tool
of a second, distinct server — and verbatim otherwise; and
resolve_function_name maps the exposed name back to the tool's qualified
name (the function-name map being rebuilt from the empty map on every
build). -/
theorem claim2_amended (tools : List (String × ToolMeta)) (p : String × ToolMeta)
    (hkeys : (tools.map Prod.fst).Nodup)
    (hwf : ∀ q ∈ tools, q.1 = q.2.server ++ ":" ++ q.2.name)
    (hexp : (tools.map (fun q => exposedName tools q.2)).Nodup)
    (hp : p ∈ tools) :
    (1 < countBase tools p.2.name →
      exposedName tools p.2 = p.2.server ++ "_" ++ p.2.name) ∧
    (¬ 1 < countBase tools p.2.name → exposedName tools p.2 = p.2.name) ∧
    ((1 < countBase tools p.2.name) ↔
      ∃ q ∈ tools, q.2.server ≠ p.2.server ∧ q.2.name = p.2.name) ∧
    resolve_function_name (build_openai_tools_spec tools).2 (exposedName tools p.2) =
      some p.1 := by
  refine ⟨fun h => by rw [exposedName, if_pos h],
          fun h => by rw [exposedName, if_neg h], ⟨fun h => ?_, fun h => ?_⟩, ?_⟩
  · rw [countBase] at h
    have hmem : p ∈ tools.filter (fun q => q.2.name == p.2.name) :=
      List.mem_filter.mpr ⟨hp, by simp⟩
    have hndt : (tools.filter (fun q => q.2.name == p.2.name)).Nodup :=
      (List.Nodup.of_map Prod.fst hkeys).filter _
    obtain ⟨q, hqf, hqp⟩ := exists_ne_of_one_lt_length hndt hmem h
    obtain ⟨hq, hqname⟩ := List.mem_filter.mp hqf
    refine ⟨q, hq, ?_, eq_of_beq hqname⟩
    intro hsrv
    apply hqp
    refine List.inj_on_of_nodup_map hkeys hq hp ?_
    rw [hwf q hq, hwf p hp, hsrv, eq_of_beq hqname]
  · obtain ⟨q, hq, hsrv, hname⟩ := h
    have hqp : q ≠ p := fun h => hsrv (by rw [h])
    rw [countBase]
    exact two_mem_one_lt_length
      (List.mem_filter.mpr ⟨hq, by simp [hname]⟩)
      (List.mem_filter.mpr ⟨hp, by simp⟩) hqp
  · rw [resolve_function_name, build_openai_tools_spec,
      buildFold_snd tools tools ([], []) hexp (fun k _ => rfl), List.nil_append]
    exact keyLookup_map_self (fun q => exposedName tools q.2) tools p hexp hp

/-- The spec's example catalog: serverA and serverB both expose `search`, a
single server exposes `forecast`. -/
def toolsDemo : List (String × ToolMeta) :=
  [("serverA:search", ⟨"serverA", "search", "", .pNone⟩),
   ("serverB:search", ⟨"serverB", "search", "", .pNone⟩),
   ("weather:forecast", ⟨"weather", "forecast", "", .pNone⟩)]

/-- Witness for C2: serverA's `search` is exposed as `serverA_search` and
resolves back to `serverA:search`. -/
theorem claim2_witness :
    (1 < countBase toolsDemo "search" →
      exposedName toolsDemo ⟨"serverA", "search", "", .pNone⟩ = "serverA_search") ∧
    (¬ 1 < countBase toolsDemo "search" →
      exposedName toolsDemo ⟨"serverA", "search", "", .pNone⟩ = "search") ∧
    ((1 < countBase toolsDemo "search") ↔
      ∃ q ∈ toolsDemo, q.2.server ≠ "serverA" ∧ q.2.name = "search") ∧
    resolve_function_name (build_openai_tools_spec toolsDemo).2
      (exposedName toolsDemo ⟨"serverA", "search", "", .pNone⟩) =
        some "serverA:search" :=
  claim2_amended toolsDemo ("serverA:search", ⟨"serverA", "search", "", .pNone⟩)
    (by decide) (by decide) (by decide) (by decide)

/-! ### Adapter runtime state and call dispatch
(mcp_client_adapter.py `call_tool` lines 177-195, `shutdown` lines 120-141,
`_start_server` lines 276-306). A runtime keeps the three flags the control
flow reads: whether `rt.session` has been assigned, whether `rt.started` is
set, and whether `rt.shutdown` is set — `_start_server` assigns `rt.session`
before awaiting `session.initialize()` and sets `rt.started` only after tool
listing. The value the awaited `rt.session.call_tool(...)` produces (or the
exception `_run_coroutine_sync` re-raises) is an oracle argument, and the
list of dispatched tools/call requests is returned alongside the answer. -/

structure RuntimeR where
  sessionSet : Bool
  startedSet : Bool
  shutdownSet : Bool
deriving DecidableEq

structure AdapterSt where
  tools : List (String × ToolMeta)
  servers : List (String × RuntimeR)
  closed : Bool
deriving DecidableEq

inductive CallOutcome where
  | ok (result : PyVal)
  | exn (msg : String)
deriving DecidableEq

/-- MCPAdapter.call_tool: look the qualified name up in the registry, locate
the owning runtime, guard on `not rt or not rt.session`, dispatch, and
normalize the reply with `_parse_call_result`; an exception from the awaited
call becomes a structured "Tool call failed" error. -/
def call_tool (st : AdapterSt) (sessionCall : String → String → CallOutcome)
    (qualified : String) (arguments : List (String × PyVal)) :
    PyVal × List (String × String × List (String × PyVal)) :=
  match keyLookup st.tools qualified with
  | none => (.pDict [("error", .pStr ("Unknown tool " ++ qualified))], [])
  | some meta =>
    match keyLookup st.servers meta.server with
    | none =>
        (.pDict [("error", .pStr ("Server " ++ meta.server ++ " not ready"))], [])
    | some rt =>
        if rt.sessionSet = false then
          (.pDict [("error", .pStr ("Server " ++ meta.server ++ " not ready"))], [])
        else
          match sessionCall meta.server meta.name with
          | .exn e =>
              (.pDict [("error", .pStr ("Tool call failed: " ++ e))],
               [(meta.server, meta.name, arguments)])
          | .ok res => (parse_call_result res, [(meta.server, meta.name, arguments)])

/-- MCPAdapter.shutdown: a second call returns at the `_closed` guard;
otherwise the closed flag is set and `rt.shutdown.set` is scheduled for
every runtime with a live session whose shutdown event is not yet set.
Neither the tool registry nor any runtime's session reference is cleared. -/
def adapterShutdown (st : AdapterSt) : AdapterSt :=
  if st.closed then st
  else
    ⟨st.tools,
     st.servers.map (fun p =>
       if p.2.sessionSet && !p.2.shutdownSet then
         (p.1, ⟨p.2.sessionSet, p.2.startedSet, true⟩)
       else p),
     true⟩

/-- C3: calling a tool whose qualified name is not in the registry returns
the structured Unknown-tool error dict; the call is total (nothing is raised
across the facade), consults no server runtime, and the list of dispatched
requests is empty — no server is contacted and nothing blocks. -/
theorem claim3_unknown_tool (st : AdapterSt)
    (sessionCall : String → String → CallOutcome) (qualified : String)
    (arguments : List (String × PyVal))
    (h : keyLookup st.tools qualified = none) :
    call_tool st sessionCall qualified arguments =
      (.pDict [("error", .pStr ("Unknown tool " ++ qualified))], []) := by
  simp only [call_tool, h]

/-- Witness for C3: an unknown qualified name against a live server. -/
theorem claim3_witness :
    call_tool ⟨[("w:forecast", ⟨"w", "forecast", "", .pNone⟩)],
        [("w", ⟨true, true, false⟩)], false⟩
      (fun _ _ => .ok .pNone) "ghost:tool" [] =
      (.pDict [("error", .pStr "Unknown tool ghost:tool")], []) :=
  claim3_unknown_tool _ _ _ _ rfl

/-- A registry with one ready server `w` owning the tool `w:forecast`. -/
def stReady : AdapterSt :=
  ⟨[("w:forecast", ⟨"w", "forecast", "", .pNone⟩)],
   [("w", ⟨true, true, false⟩)], false⟩

/-- C6 counterexample: after `shutdown` has run — the runtime's shutdown
event is set and the adapter is closed — `call_tool` still dispatches a
tools/call request to that runtime and returns its parsed reply instead of
the "not ready" error; likewise for a runtime whose session is assigned but
whose initialization has not completed (`started` unset): the guard reads
only `rt.session`. -/
theorem claim6_counterexample :
    keyLookup (adapterShutdown stReady).servers "w" = some ⟨true, true, true⟩ ∧
    (adapterShutdown stReady).closed = true ∧
    (call_tool (adapterShutdown stReady)
      (fun _ _ => .ok (.pDict [("ok", .pBool true)])) "w:forecast" []).2 =
      [("w", "forecast", [])] ∧
    (call_tool (adapterShutdown stReady)
      (fun _ _ => .ok (.pDict [("ok", .pBool true)])) "w:forecast" []).1 ≠
      .pDict [("error", .pStr "Server w not ready")] ∧
    (call_tool ⟨stReady.tools, [("w", ⟨true, false, false⟩)], false⟩
      (fun _ _ => .ok (.pDict [("ok", .pBool true)])) "w:forecast" []).2 =
      [("w", "forecast", [])] := by
  decide

/-- C6 amended: the readiness guard `call_tool` actually enforces is session
presence: when the owning runtime is missing from the server table or its
session has not been assigned, the call returns the structured
"Server ... not ready" error and dispatches nothing. The started and
shutdown flags are not consulted. -/
theorem claim6_amended (st : AdapterSt)
    (sessionCall : String → String → CallOutcome) (qualified : String)
    (arguments : List (String × PyVal)) (meta : ToolMeta)
    (hq : keyLookup st.tools qualified = some meta)
    (hrt : keyLookup st.servers meta.server = none ∨
      ∃ rt, keyLookup st.servers meta.server = some rt ∧ rt.sessionSet = false) :
    call_tool st sessionCall qualified arguments =
      (.pDict [("error", .pStr ("Server " ++ meta.server ++ " not ready"))], []) := by
  rcases hrt with h | ⟨rt, h, hs⟩
  · simp only [call_tool, hq, h]
  · simp only [call_tool, hq, h, hs, if_pos]

/-- Witness for C6: a server whose runtime exists but whose session was
never assigned is reported not ready and receives no request. -/
theorem claim6_witness :
    call_tool ⟨[("w:forecast", ⟨"w", "forecast", "", .pNone⟩)],
        [("w", ⟨false, false, false⟩)], false⟩
      (fun _ _ => .ok .pNone) "w:forecast" [] =
      (.pDict [("error", .pStr "Server w not ready")], []) :=
  claim6_amended _ _ _ _ ⟨"w", "forecast", "", .pNone⟩ rfl
    (.inr ⟨⟨false, false, false⟩, rfl, rfl⟩)

/-! ### Initialize handshake
(mcp_official_client.py `_initialize` lines 183-221 and `_send` lines
147-162). `_send` serializes the message in one write and allocates the next
`handle.next_id` only when `id_required`; the reply `_wait_for` hands back
for a given request id is an oracle argument: `none` models a timeout,
`some obj` the decoded JSON reply object. -/

structure RpcMsg where
  method : String
  params : Option JVal
  id : Option Nat
deriving DecidableEq

/-- The three parameter variants `_initialize` tries, in order. -/
def initVariants : List JVal :=
  [.obj [("capabilities".toList, .obj []),
         ("clientInfo".toList, .obj [("name".toList, .str "llm-classroom".toList),
                                     ("version".toList, .str "0.1.0".toList)])],
   .obj [("protocolVersion".toList, .str "2024-11-05".toList),
         ("capabilities".toList, .obj []),
         ("clientInfo".toList, .obj [("name".toList, .str "llm-classroom".toList),
                                     ("version".toList, .str "0.1.0".toList)])],
   .obj [("protocolVersion".toList, .str "2024-06-01".toList),
         ("capabilities".toList, .obj []),
         ("clientInfo".toList, .obj [("name".toList, .str "llm-classroom".toList),
                                     ("version".toList, .str "0.1.0".toList)])]]

/-- Key lookup in a decoded JSON object (`"error" not in resp`). -/
def objLookup : List (List Char × JVal) → List Char → Option JVal
  | [], _ => none
  | (k, v) :: rest, key => if k = key then some v else objLookup rest key

/-- The acceptance test `if resp and "error" not in resp`: a reply arrived,
is truthy (a non-empty dict), and carries no "error" key. -/
def respAccepted (resp : Option (List (List Char × JVal))) : Bool :=
  match resp with
  | none => false
  | some r => !r.isEmpty && (objLookup r "error".toList).isNone

/-- The variant loop of `_initialize`: send an initialize request per
variant under the next fresh id, consult the reply oracle; on acceptance
send the id-less, params-less notifications/initialized message and stop,
returning the sent transcript and the index of the accepted variant. When
every variant fails the RuntimeError path is taken, modelled as
`Except.error` carrying the transcript. -/
def initLoop (oracle : Nat → Option (List (List Char × JVal))) :
    List JVal → Nat → Nat → Except (List RpcMsg) (List RpcMsg × Nat)
  | [], _, _ => .error []
  | p :: rest, nextId, idx =>
    let msg : RpcMsg := ⟨"initialize", some p, some nextId⟩
    if respAccepted (oracle nextId) then
      .ok ([msg, ⟨"notifications/initialized", none, none⟩], idx)
    else
      match initLoop oracle rest (nextId + 1) (idx + 1) with
      | .ok (msgs, i) => .ok (msg :: msgs, i)
      | .error msgs => .error (msg :: msgs)

/-- `_initialize` over the source's variant list, starting from the
handle's current next_id. -/
def initHandshake (oracle : Nat → Option (List (List Char × JVal)))
    (firstId : Nat) : Except (List RpcMsg) (List RpcMsg × Nat) :=
  initLoop oracle initVariants firstId 0

/-- One initialize request per variant, under consecutive ids. -/
def initReqs (vs : List JVal) (firstId : Nat) : List RpcMsg :=
  match vs with
  | [] => []
  | p :: rest => ⟨"initialize", some p, some firstId⟩ :: initReqs rest (firstId + 1)

/-- The transcript produced when variants 0..k-1 fail and variant k is
accepted: k+1 initialize requests then the lone initialized notification. -/
def sentMsgs (vs : List JVal) (firstId k : Nat) : List RpcMsg :=
  initReqs (vs.take (k + 1)) firstId ++ [⟨"notifications/initialized", none, none⟩]

theorem initReqs_facts : ∀ (vs : List JVal) (i : Nat), ∀ m ∈ initReqs vs i,
    m.method = "initialize" ∧ m.id ≠ none := by
  intro vs
  induction vs with
  | nil =>
    intro i m hm
    cases hm
  | cons p rest ih =>
    intro i m hm
    rcases List.mem_cons.mp hm with rfl | hm'
    · exact ⟨rfl, fun h => by cases h⟩
    · exact ih (i + 1) m hm'

theorem initReqs_length : ∀ (vs : List JVal) (i : Nat),
    (initReqs vs i).length = vs.length := by
  intro vs
  induction vs with
  | nil =>
    intro i
    rfl
  | cons p rest ih =>
    intro i
    rw [initReqs, List.length_cons, ih (i + 1), List.length_cons]

theorem initLoop_accepts (oracle : Nat → Option (List (List Char × JVal))) :
    ∀ (vs : List JVal) (firstId idx k : Nat),
      k < vs.length →
      (∀ j < k, respAccepted (oracle (firstId + j)) = false) →
      respAccepted (oracle (firstId + k)) = true →
      initLoop oracle vs firstId idx = .ok (sentMsgs vs firstId k, idx + k) := by
  intro vs
  induction vs with
  | nil =>
    intro firstId idx k hk
    exact absurd hk (Nat.not_lt_zero k)
  | cons p rest ih =>
    intro firstId idx k hk hfail hok
    match k, hk, hfail, hok with
    | 0, _, _, hok =>
      have h0 : respAccepted (oracle firstId) = true := by simpa using hok
      simp only [initLoop, h0, if_true, sentMsgs, List.take, initReqs, Nat.add_zero]
      rfl
    | k' + 1, hk, hfail, hok =>
      have hf0 : respAccepted (oracle firstId) = false := by
        simpa using hfail 0 (Nat.succ_pos k')
      have ihh := ih (firstId + 1) (idx + 1) k'
        (by simpa [Nat.succ_lt_succ_iff] using hk)
        (fun j hj => by
          have := hfail (j + 1) (Nat.succ_lt_succ hj)
          rwa [show firstId + (j + 1) = firstId + 1 + j by omega] at this)
        (by rwa [show firstId + (k' + 1) = firstId + 1 + k' by omega] at hok)
      simp only [initLoop, hf0, Bool.false_eq_true, if_false, ihh]
      have hn : idx + 1 + k' = idx + (k' + 1) := by omega
      rw [hn]
      rfl

set_option maxRecDepth 4096 in
/-- C4: when the replies to the first k initialize attempts are rejected
(timed out, falsy, or carrying an "error" key) and the reply to attempt k+1
is accepted, the handshake succeeds having accepted variant index k, and the
transcript it sent is exactly one initialize request per tried variant —
under consecutive fresh ids — followed by a single
notifications/initialized message carrying no id and no params; no further
variant is tried. -/
theorem claim4_handshake (oracle : Nat → Option (List (List Char × JVal)))
    (firstId k : Nat) (hk : k < initVariants.length)
    (hfail : ∀ j < k, respAccepted (oracle (firstId + j)) = false)
    (hok : respAccepted (oracle (firstId + k)) = true) :
    initHandshake oracle firstId = .ok (sentMsgs initVariants firstId k, k) ∧
    (sentMsgs initVariants firstId k).length = k + 2 ∧
    ((sentMsgs initVariants firstId k).filter
      (fun m => m.method == "notifications/initialized")) =
      [⟨"notifications/initialized", none, none⟩] ∧
    ∀ m ∈ sentMsgs initVariants firstId k, m.method = "initialize" →
      m.id ≠ none := by
  refine ⟨?_, ?_, ?_, ?_⟩
  · rw [initHandshake, initLoop_accepts oracle initVariants firstId 0 k hk hfail hok,
      Nat.zero_add]
  · rw [sentMsgs, List.length_append, initReqs_length, List.length_take]
    rw [show initVariants.length = 3 from rfl] at hk ⊢
    simp only [List.length_cons, List.length_nil]
    omega
  · rw [sentMsgs, List.filter_append]
    have hnil : (initReqs (initVariants.take (k + 1)) firstId).filter
        (fun m => m.method == "notifications/initialized") = [] := by
      rw [List.filter_eq_nil_iff]
      intro m hm
      have := (initReqs_facts _ firstId m hm).1
      simp [this]
    rw [hnil, List.nil_append]
    rfl
  · intro m hm hmeth
    rcases List.mem_append.mp hm with hm' | hm'
    · exact (initReqs_facts _ firstId m hm').2
    · rcases List.mem_singleton.mp hm' with rfl
      exact absurd hmeth (by decide)

/-- A reply oracle whose first initialize attempt is answered with an error
object and whose second is answered with a result object. -/
def oracleC4 : Nat → Option (List (List Char × JVal)) :=
  fun n =>
    if n = 0 then some [("error".toList, .str "bad params".toList)]
    else if n = 1 then some [("result".toList, .obj [])]
    else none

/-- Witness for C4: the first variant is rejected, the second accepted. -/
theorem claim4_witness :
    initHandshake oracleC4 0 = .ok (sentMsgs initVariants 0 1, 1) ∧
    (sentMsgs initVariants 0 1).length = 3 ∧
    ((sentMsgs initVariants 0 1).filter
      (fun m => m.method == "notifications/initialized")) =
      [⟨"notifications/initialized", none, none⟩] ∧
    (∀ m ∈ sentMsgs initVariants 0 1, m.method = "initialize" → m.id ≠ none) :=
  claim4_handshake oracleC4 0 1 (by decide) (by decide) (by decide)

/-! ### Server startup
(mcp_official_client.py `start` lines 49-81; the same loop shape appears in
mcp_core.py `start_enabled_servers` lines 54-85). Disabled entries and
already-running names are skipped; Popen is guarded by
`except FileNotFoundError: continue` only, so any other spawn exception
propagates out of start; after a successful spawn the handle is registered
and discovery runs under its own try/except, registering the tools it
lists — `disc` gives the discovered tools per server (empty when the
handshake failed), keyed into the registry by qualified name. -/

structure Entry where
  name : String
  command : String
  enabled : Bool
deriving DecidableEq

inductive SpawnRes where
  | started
  | fileNotFound
  | otherError (msg : String)
deriving DecidableEq

structure MgrSt where
  servers : List String
  tools : List (String × ToolMeta)
deriving DecidableEq

def start (spawn : Entry → SpawnRes) (disc : String → List (String × ToolMeta)) :
    List Entry → MgrSt → Except String MgrSt
  | [], st => .ok st
  | e :: rest, st =>
    if e.enabled = false then start spawn disc rest st
    else if e.name ∈ st.servers then start spawn disc rest st
    else
      match spawn e with
      | .fileNotFound => start spawn disc rest st
      | .otherError msg => .error msg
      | .started =>
          start spawn disc rest
            ⟨st.servers ++ [e.name],
             (disc e.name).foldl (fun a kv => keyInsert a kv.1 kv.2) st.tools⟩

/-- The tools discovered across a list of entries, in catalog order. -/
def discAll (disc : String → List (String × ToolMeta)) : List Entry → List (String × ToolMeta)
  | [] => []
  | e :: rest => disc e.name ++ discAll disc rest

theorem keyLookup_not_mem {α : Type} :
    ∀ (m : List (String × α)) (k : String),
      k ∉ m.map Prod.fst → keyLookup m k = none := by
  intro m
  induction m with
  | nil =>
    intro k _
    rfl
  | cons p rest ih =>
    intro k hk
    obtain ⟨k0, v⟩ := p
    rw [List.map_cons] at hk
    rw [keyLookup, if_neg (fun h => hk (List.mem_cons.mpr (Or.inl h.symm)))]
    exact ih k (fun h => hk (List.mem_cons_of_mem _ h))

theorem foldl_keyInsert_fresh {α : Type} :
    ∀ (l acc : List (String × α)),
      (acc.map Prod.fst ++ l.map Prod.fst).Nodup →
      l.foldl (fun a kv => keyInsert a kv.1 kv.2) acc = acc ++ l := by
  intro l
  induction l with
  | nil =>
    intro acc _
    simp
  | cons kv rest ih =>
    intro acc hnd
    obtain ⟨k, v⟩ := kv
    rw [List.foldl_cons]
    rw [List.map_cons] at hnd
    have hk : k ∉ acc.map Prod.fst := by
      have hdisj := (List.nodup_append.mp hnd).2.2
      intro hmem
      exact hdisj hmem (List.mem_cons_self _ _)
    have hins : keyInsert acc k v = acc ++ [(k, v)] :=
      keyInsert_fresh acc k v (keyLookup_not_mem acc k hk)
    rw [hins, ih (acc ++ [(k, v)]) (by simpa using hnd), List.append_assoc,
      List.singleton_append]

theorem start_cons_started (spawn : Entry → SpawnRes)
    (disc : String → List (String × ToolMeta)) (e : Entry) (rest : List Entry)
    (st : MgrSt) (hen : e.enabled = true) (hns : e.name ∉ st.servers)
    (hsp : spawn e = .started) :
    start spawn disc (e :: rest) st =
      start spawn disc rest
        ⟨st.servers ++ [e.name],
         (disc e.name).foldl (fun a kv => keyInsert a kv.1 kv.2) st.tools⟩ := by
  simp only [start]
  rw [if_neg (by simp [hen]), if_neg hns, hsp]

theorem start_cons_notfound (spawn : Entry → SpawnRes)
    (disc : String → List (String × ToolMeta)) (e : Entry) (rest : List Entry)
    (st : MgrSt) (hen : e.enabled = true) (hns : e.name ∉ st.servers)
    (hsp : spawn e = .fileNotFound) :
    start spawn disc (e :: rest) st = start spawn disc rest st := by
  simp only [start]
  rw [if_neg (by simp [hen]), if_neg hns, hsp]

theorem start_ok (spawn : Entry → SpawnRes) (disc : String → List (String × ToolMeta)) :
    ∀ (cfg : List Entry) (st : MgrSt),
      (∀ e ∈ cfg, e.enabled = true) →
      (∀ e ∈ cfg, spawn e = .started ∨ spawn e = .fileNotFound) →
      (∀ e ∈ cfg, e.name ∉ st.servers) →
      (cfg.map Entry.name).Nodup →
      (st.tools.map Prod.fst ++
        (discAll disc (cfg.filter (fun x => spawn x == .started))).map Prod.fst).Nodup →
      start spawn disc cfg st =
        .ok ⟨st.servers ++ (cfg.filter (fun x => spawn x == .started)).map Entry.name,
             st.tools ++ discAll disc (cfg.filter (fun x => spawn x == .started))⟩ := by
  intro cfg
  induction cfg with
  | nil =>
    intro st _ _ _ _ _
    simp [start, discAll]
  | cons e rest ih =>
    intro st hen hnf hfresh hnames htools
    have hm : e ∈ e :: rest := List.mem_cons_self e rest
    rw [List.map_cons] at hnames
    have hnames' := List.nodup_cons.mp hnames
    have hen' : ∀ x ∈ rest, x.enabled = true :=
      fun x hx => hen x (List.mem_cons_of_mem e hx)
    have hnf' : ∀ x ∈ rest, spawn x = .started ∨ spawn x = .fileNotFound :=
      fun x hx => hnf x (List.mem_cons_of_mem e hx)
    rcases hnf e hm with hsp | hsp
    · have hfilter : (e :: rest).filter (fun x => spawn x == SpawnRes.started) =
          e :: rest.filter (fun x => spawn x == SpawnRes.started) :=
        List.filter_cons_of_pos (by simp [hsp])
      rw [hfilter] at htools
      have htools' : ((st.tools.map Prod.fst ++ (disc e.name).map Prod.fst) ++
          (discAll disc (rest.filter (fun x => spawn x == SpawnRes.started))).map
            Prod.fst).Nodup := by
        rw [discAll] at htools
        simpa [List.append_assoc] using htools
      have hfold : (disc e.name).foldl (fun a kv => keyInsert a kv.1 kv.2) st.tools =
          st.tools ++ disc e.name :=
        foldl_keyInsert_fresh (disc e.name) st.tools htools'.of_append_left
      have hfresh' : ∀ x ∈ rest, x.name ∉ st.servers ++ [e.name] := by
        intro x hx hmem
        rcases List.mem_append.mp hmem with h | h
        · exact hfresh x (List.mem_cons_of_mem e hx) h
        · exact hnames'.1 ((List.mem_singleton.mp h) ▸ List.mem_map_of_mem Entry.name hx)
      have htools'' : ((st.tools ++ disc e.name).map Prod.fst ++
          (discAll disc (rest.filter (fun x => spawn x == SpawnRes.started))).map
            Prod.fst).Nodup := by
        simpa [List.append_assoc] using htools'
      rw [start_cons_started spawn disc e rest st (hen e hm) (hfresh e hm) hsp, hfold,
        ih ⟨st.servers ++ [e.name], st.tools ++ disc e.name⟩ hen' hnf' hfresh'
          hnames'.2 htools'', hfilter]
      simp [discAll, List.append_assoc]
    · have hfilter : (e :: rest).filter (fun x => spawn x == SpawnRes.started) =
          rest.filter (fun x => spawn x == SpawnRes.started) :=
        List.filter_cons_of_neg (by simp [hsp])
      rw [hfilter] at htools
      rw [start_cons_notfound spawn disc e rest st (hen e hm) (hfresh e hm) hsp,
        ih st hen' hnf' (fun x hx => hfresh x (List.mem_cons_of_mem e hx))
          hnames'.2 htools, hfilter]

instance {ε α : Type} [DecidableEq ε] [DecidableEq α] : DecidableEq (Except ε α) :=
  fun a b =>
    match a, b with
    | .error e, .error f =>
        if h : e = f then isTrue (by rw [h])
        else isFalse (fun hh => by cases hh; exact h rfl)
    | .ok x, .ok y =>
        if h : x = y then isTrue (by rw [h])
        else isFalse (fun hh => by cases hh; exact h rfl)
    | .error _, .ok _ => isFalse (fun h => by cases h)
    | .ok _, .error _ => isFalse (fun h => by cases h)

/-- C5 counterexample configuration: the first server's command exists but
spawning it fails with something other than FileNotFoundError; the second
server is healthy. -/
def cfgC5 : List Entry := [⟨"a", "./bad", true⟩, ⟨"b", "python", true⟩]

/-- C5 counterexample: only FileNotFoundError is caught around Popen, so a
command that cannot be *started* (e.g. a PermissionError) propagates out of
start: the loop stops, the healthy second server is never processed and no
tools are registered, contradicting the claim for the "cannot be started"
case. -/
theorem claim5_counterexample :
    start (fun e => if e.name = "a" then .otherError "PermissionError" else .started)
      (fun n => [(n ++ ":t", ⟨n, "t", "", .pNone⟩)]) cfgC5 ⟨[], []⟩ =
      .error "PermissionError" := by
  decide

/-- C5 amended: restricted to the caught failure mode — when among enabled,
distinctly named servers exactly the entry `bad` fails to spawn and fails
with FileNotFoundError (every other entry spawns), start completes without
raising, registers exactly the other servers in order, and the registry
holds exactly the tools discovered from those servers; the failing entry
contributes nothing and the others are unaffected. -/
theorem claim5_amended (spawn : Entry → SpawnRes) (disc : String → List (String × ToolMeta))
    (cfg : List Entry) (bad : Entry)
    (hen : ∀ e ∈ cfg, e.enabled = true)
    (hnames : (cfg.map Entry.name).Nodup)
    (hbad : bad ∈ cfg) (hbadnf : spawn bad = .fileNotFound)
    (hrest : ∀ e ∈ cfg, e ≠ bad → spawn e = .started)
    (hkeys : ((discAll disc (cfg.filter (fun x => x != bad))).map Prod.fst).Nodup) :
    start spawn disc cfg ⟨[], []⟩ =
      .ok ⟨(cfg.filter (fun x => x != bad)).map Entry.name,
           discAll disc (cfg.filter (fun x => x != bad))⟩ := by
  have hcongr : ∀ x ∈ cfg, (spawn x == SpawnRes.started) = (x != bad) := by
    intro x hx
    by_cases h : x = bad
    · subst h
      simp [hbadnf]
    · simp [hrest x hx h, h]
  have hfeq : cfg.filter (fun x => spawn x == SpawnRes.started) =
      cfg.filter (fun x => x != bad) := List.filter_congr hcongr
  have h := start_ok spawn disc cfg ⟨[], []⟩ hen
    (fun e he => by
      by_cases hx : e = bad
      · exact Or.inr (hx ▸ hbadnf)
      · exact Or.inl (hrest e he hx))
    (fun e _ => List.not_mem_nil e.name) hnames
    (by simpa [hfeq] using hkeys)
  rw [h]
  simp [hfeq]

/-- The C5 witness configuration: three enabled servers, the middle one's
command missing. -/
def cfgW : List Entry :=
  [⟨"alpha", "python", true⟩, ⟨"ghost", "missing-cmd", true⟩, ⟨"gamma", "python", true⟩]

def spawnW : Entry → SpawnRes :=
  fun e => if e.name = "ghost" then .fileNotFound else .started

def discW : String → List (String × ToolMeta) :=
  fun n => [(n ++ ":t", ⟨n, "t", "", .pNone⟩)]

/-- Witness for C5: of three enabled servers the middle one's command is
missing; the other two are registered with their tools. -/
theorem claim5_witness :
    start spawnW discW cfgW ⟨[], []⟩ =
      .ok ⟨(cfgW.filter (fun x => x != ⟨"ghost", "missing-cmd", true⟩)).map Entry.name,
           discAll discW (cfgW.filter (fun x => x != ⟨"ghost", "missing-cmd", true⟩))⟩ :=
  claim5_amended spawnW discW cfgW ⟨"ghost", "missing-cmd", true⟩
    (by decide) (by decide) (by decide) (by decide) (by decide) (by decide)

/-! ### Manager shutdown
(mcp_core.py `shutdown` lines 104-113; the adapter's own variant, lines
120-141 of mcp_client_adapter.py, is modelled as `adapterShutdown` above).
`shutdown` terminates every managed process handle — `terminate()` on an
already-exited process is a no-op, and any exception on that path is caught
and swallowed — and then clears the handle table. The operating-system
process table is carried explicitly as a pid → still-running map. -/

structure CoreSt where
  servers : List (String × Nat)
deriving DecidableEq

/-- `process.terminate()`: the targeted pid stops running. -/
def terminatePid (sys : List (Nat × Bool)) (pid : Nat) : List (Nat × Bool) :=
  sys.map (fun p => if p.1 = pid then (p.1, false) else p)

/-- MCPManager.shutdown: terminate each managed process, then
`self.servers.clear()`. -/
def coreShutdown : CoreSt × List (Nat × Bool) → CoreSt × List (Nat × Bool) :=
  fun s => (⟨[]⟩, s.1.servers.foldl (fun sys p => terminatePid sys p.2) s.2)

theorem terminatePid_kills (sys : List (Nat × Bool)) (pid : Nat) :
    ∀ b, (pid, b) ∈ terminatePid sys pid → b = false := by
  intro b hb
  rcases List.mem_map.mp hb with ⟨⟨q, c⟩, hq, himg⟩
  by_cases h : q = pid
  · rw [if_pos h] at himg
    exact (Prod.mk.injEq _ _ _ _ ▸ himg).2.symm
  · rw [if_neg h] at himg
    exact absurd (Prod.mk.injEq _ _ _ _ ▸ himg).1 h

theorem terminatePid_dead_stays (sys : List (Nat × Bool)) (k pid : Nat)
    (h : ∀ b, (pid, b) ∈ sys → b = false) :
    ∀ b, (pid, b) ∈ terminatePid sys k → b = false := by
  intro b hb
  rcases List.mem_map.mp hb with ⟨⟨q, c⟩, hq, himg⟩
  by_cases hqk : q = k
  · rw [if_pos hqk] at himg
    exact (Prod.mk.injEq _ _ _ _ ▸ himg).2.symm
  · rw [if_neg hqk] at himg
    exact h b (himg ▸ hq)

theorem foldl_terminate_dead_stays :
    ∀ (l : List (String × Nat)) (sys : List (Nat × Bool)) (pid : Nat),
      (∀ b, (pid, b) ∈ sys → b = false) →
      ∀ b, (pid, b) ∈ l.foldl (fun s p => terminatePid s p.2) sys → b = false := by
  intro l
  induction l with
  | nil =>
    intro sys pid h b hb
    exact h b hb
  | cons p rest ih =>
    intro sys pid h b hb
    exact ih (terminatePid sys p.2) pid (terminatePid_dead_stays sys p.2 pid h) b hb

theorem foldl_terminate_kills :
    ∀ (l : List (String × Nat)) (sys : List (Nat × Bool)) (pid : Nat),
      pid ∈ l.map Prod.snd →
      ∀ b, (pid, b) ∈ l.foldl (fun s p => terminatePid s p.2) sys → b = false := by
  intro l
  induction l with
  | nil =>
    intro sys pid hpid
    cases hpid
  | cons p rest ih =>
    intro sys pid hpid b hb
    rw [List.map_cons] at hpid
    rcases List.mem_cons.mp hpid with h | h
    · exact foldl_terminate_dead_stays rest (terminatePid sys p.2) pid
        (h ▸ terminatePid_kills sys p.2) b hb
    · exact ih (terminatePid sys p.2) pid h b hb

/-- C8: shutdown is a total function of the manager and process-table state
(in the source every terminate() is wrapped in try/except, so nothing
propagates), it empties the managed-handle table, leaves every previously
managed process not running, is idempotent — a second call completes and
changes nothing — and called before start (no managed handles) it returns
leaving the process table untouched. -/
theorem claim8_shutdown (st : CoreSt) (sys : List (Nat × Bool)) :
    (coreShutdown (st, sys)).1.servers = [] ∧
    (∀ name pid, (name, pid) ∈ st.servers →
      ∀ b, (pid, b) ∈ (coreShutdown (st, sys)).2 → b = false) ∧
    coreShutdown (coreShutdown (st, sys)) = coreShutdown (st, sys) ∧
    coreShutdown (⟨[]⟩, sys) = (⟨[]⟩, sys) := by
  refine ⟨rfl, ?_, rfl, rfl⟩
  intro name pid hmem b hb
  exact foldl_terminate_kills st.servers sys pid
    (List.mem_map_of_mem Prod.snd hmem) b hb

end MCP
